import Mathlib

/-!
Shallow embedding of `src/QGLViewer/keyFrameInterpolator.cpp`
(class `qglviewer::KeyFrameInterpolator` and its private `KeyFrame` class).

Floating point scalars are modelled by `ℚ`.  The external `Vec` and
`Quaternion` classes (files not part of this repository snapshot) are
modelled by their component records; the only operations the interpolator
itself uses are componentwise arithmetic, `Quaternion::dot`,
`Quaternion::negate`, and the transcendental `Quaternion::squad` /
`Quaternion::squadTangent`.  The latter two are transcendental and are kept
as explicit function parameters (`squad`, `sqTangent`); theorems about
orientation endpoints assume only the endpoint laws stated in the spec
(`squad(a,b,c,d,0) = a`, `squad(a,b,c,d,1) = d`).
-/

/-- Modelled from the spec: a 3-vector (the external `Vec` class, absent from
the snapshot); the interpolator uses only componentwise `+`, `-`, scalar `*`. -/
@[ext]
structure Vec where
  x : ℚ
  y : ℚ
  z : ℚ
deriving DecidableEq, Repr

instance : Add Vec := ⟨fun a b => ⟨a.x + b.x, a.y + b.y, a.z + b.z⟩⟩
instance : Sub Vec := ⟨fun a b => ⟨a.x - b.x, a.y - b.y, a.z - b.z⟩⟩
instance : Neg Vec := ⟨fun a => ⟨-a.x, -a.y, -a.z⟩⟩
instance : SMul ℚ Vec := ⟨fun c a => ⟨c * a.x, c * a.y, c * a.z⟩⟩
instance : Zero Vec := ⟨⟨0, 0, 0⟩⟩

@[simp] theorem Vec.add_x (a b : Vec) : (a + b).x = a.x + b.x := rfl
@[simp] theorem Vec.add_y (a b : Vec) : (a + b).y = a.y + b.y := rfl
@[simp] theorem Vec.add_z (a b : Vec) : (a + b).z = a.z + b.z := rfl
@[simp] theorem Vec.sub_x (a b : Vec) : (a - b).x = a.x - b.x := rfl
@[simp] theorem Vec.sub_y (a b : Vec) : (a - b).y = a.y - b.y := rfl
@[simp] theorem Vec.sub_z (a b : Vec) : (a - b).z = a.z - b.z := rfl
@[simp] theorem Vec.smul_x (c : ℚ) (a : Vec) : (c • a).x = c * a.x := rfl
@[simp] theorem Vec.smul_y (c : ℚ) (a : Vec) : (c • a).y = c * a.y := rfl
@[simp] theorem Vec.smul_z (c : ℚ) (a : Vec) : (c • a).z = c * a.z := rfl
@[simp] theorem Vec.zero_x : (0 : Vec).x = 0 := rfl
@[simp] theorem Vec.zero_y : (0 : Vec).y = 0 := rfl
@[simp] theorem Vec.zero_z : (0 : Vec).z = 0 := rfl

@[simp] theorem Vec.zero_smul (a : Vec) : (0 : ℚ) • a = 0 := by
  ext <;> simp

@[simp] theorem Vec.add_zero (a : Vec) : a + 0 = a := by
  ext <;> simp

/-- Modelled from the spec: a quaternion (the external `Quaternion` class,
absent from the snapshot) as its four components, `w` being the scalar part. -/
@[ext]
structure Quat where
  x : ℚ
  y : ℚ
  z : ℚ
  w : ℚ
deriving DecidableEq, Repr

/-- Modelled from the spec: `Quaternion::dot`, the 4-component dot product
used by the orientation-continuity fix. -/
def Quat.dot (a b : Quat) : ℚ := a.x * b.x + a.y * b.y + a.z * b.z + a.w * b.w

/-- Modelled from the spec: `Quaternion::negate`, componentwise negation
(the other representative of the same rotation). -/
def Quat.negate (a : Quat) : Quat := ⟨-a.x, -a.y, -a.z, -a.w⟩

/-- Identity quaternion, the default `Quaternion()` value. -/
def qid : Quat := ⟨0, 0, 0, 1⟩

theorem Quat.dot_negate_right (a b : Quat) : a.dot b.negate = -a.dot b := by
  simp [Quat.dot, Quat.negate]; ring

theorem Quat.dot_self_nonneg (a : Quat) : 0 ≤ a.dot a := by
  have hx := mul_self_nonneg a.x
  have hy := mul_self_nonneg a.y
  have hz := mul_self_nonneg a.z
  have hw := mul_self_nonneg a.w
  simp only [Quat.dot]
  linarith

theorem Quat.negate_eq_self_of_dot_self_zero {a : Quat} (h : a.dot a = 0) :
    a.negate = a := by
  have hx := mul_self_nonneg a.x
  have hy := mul_self_nonneg a.y
  have hz := mul_self_nonneg a.z
  have hw := mul_self_nonneg a.w
  simp only [Quat.dot] at h
  have hx0 : a.x = 0 := by nlinarith
  have hy0 : a.y = 0 := by nlinarith
  have hz0 : a.z = 0 := by nlinarith
  have hw0 : a.w = 0 := by nlinarith
  ext <;> simp [Quat.negate, hx0, hy0, hz0, hw0]

/-- A pose: position plus orientation.  Stands both for the target sink
(`Frame`, reduced to the state the interpolator writes) and for the snapshot
of an external live keyframe source (`Frame*`, read by
`KeyFrame::updateValuesFromPointer`). -/
@[ext]
structure Pose where
  p : Vec
  q : Quat
deriving DecidableEq, Repr

/-- `KeyFrameInterpolator::KeyFrame`: time, position `p_`, orientation `q_`,
derived tangents `tgP_`, `tgQ_`, and optional live-source reference `frame_`
(modelled by the source's current pose snapshot, constant while no
source-change notification happens). -/
@[ext]
structure KeyFrame where
  time : ℚ
  p : Vec
  q : Quat
  tgP : Vec
  tgQ : Quat
  frame : Option Pose
deriving DecidableEq, Repr

/-- Default keyframe used as the out-of-range placeholder for list lookups. -/
def dKF : KeyFrame := ⟨0, 0, qid, 0, qid, none⟩

/-- `KeyFrame::KeyFrame(const Frame& fr, float t)`: store values, no source;
`tgP_`/`tgQ_` are left default-initialized (`Vec()`, `Quaternion()`). -/
def mkKeyFrameVal (fr : Pose) (t : ℚ) : KeyFrame :=
  ⟨t, fr.p, fr.q, 0, qid, none⟩

/-- `KeyFrame::KeyFrame(const Frame* fr, float t)`: remembers the source and
runs `updateValuesFromPointer`. -/
def mkKeyFramePtr (src : Pose) (t : ℚ) : KeyFrame :=
  ⟨t, src.p, src.q, 0, qid, some src⟩

/-- `KeyFrame::updateValuesFromPointer`: copy the live source's current
position and orientation into `p_`/`q_` (identity when no source, matching
the `if (kf->frame())` guard at the call site). -/
def updateValuesFromPointer (kf : KeyFrame) : KeyFrame :=
  match kf.frame with
  | some src => { kf with p := src.p, q := src.q }
  | none => kf

/-- `KeyFrame::flipOrientation(const Quaternion& prev)`: negate `q_` when its
dot product with the previous (already fixed) orientation is negative. -/
def flipOrientation (prev : Quat) (kf : KeyFrame) : KeyFrame :=
  if Quat.dot prev kf.q < 0 then { kf with q := kf.q.negate } else kf

/-- One iteration of the first loop of
`KeyFrameInterpolator::updateModifiedFrameValues`: refresh from the live
source if any, then apply the continuity fix. -/
def stepKF (prev : Quat) (kf : KeyFrame) : KeyFrame :=
  flipOrientation prev (updateValuesFromPointer kf)

/-- First loop of `updateModifiedFrameValues`: walk the list threading the
previous (fixed) orientation through `flipOrientation`. -/
def updateLoop (prev : Quat) : List KeyFrame → List KeyFrame
  | [] => []
  | kf :: rest =>
      let k2 := stepKF prev kf
      k2 :: updateLoop k2.q rest

/-- `KeyFrame::computeTangent(prev, next)`:
`tgP_ = 0.5*(next->position() - prev->position())` and
`tgQ_ = Quaternion::squadTangent(prev->orientation(), q_, next->orientation())`. -/
def computeTangent (sqTangent : Quat → Quat → Quat → Quat)
    (prev next kf : KeyFrame) : KeyFrame :=
  { kf with tgP := (1 / 2 : ℚ) • (next.p - prev.p),
            tgQ := sqTangent prev.q kf.q next.q }

/-- Second loop of `updateModifiedFrameValues`: compute each keyframe's
tangents from its neighbours, duplicating the endpoint when there is no
next keyframe (`kf->computeTangent(prev, kf)`); the `prev` pointer is the
previously processed keyframe (the keyframe itself for the first). -/
def tangentLoop (sqTangent : Quat → Quat → Quat → Quat) (prev : KeyFrame) :
    List KeyFrame → List KeyFrame
  | [] => []
  | kf :: rest =>
      let nxt := match rest with
        | [] => kf
        | n :: _ => n
      let k2 := computeTangent sqTangent prev nxt kf
      k2 :: tangentLoop sqTangent k2 rest

/-- `KeyFrameInterpolator::updateModifiedFrameValues` (the Pose Resolver's
refresh): `prevQ` starts at the first keyframe's *stored* orientation, the
first loop refreshes values and fixes orientation continuity, the second
loop recomputes tangents starting from `prev = getFirst()`. -/
def updateModifiedFrameValues (sqTangent : Quat → Quat → Quat → Quat)
    (kfs : List KeyFrame) : List KeyFrame :=
  match kfs with
  | [] => []
  | k0 :: _ =>
      let l1 := updateLoop k0.q kfs
      tangentLoop sqTangent (l1.headD dKF) l1

/-- Playback / evaluation notifications (`interpolated()` and `endReached()`
signals); delivery mechanics are outside the core, only emission is modelled. -/
inductive Event where
  | interpolated
  | endReached
deriving DecidableEq, Repr

/-- `KeyFrameInterpolator` state: the keyframe store `keyFrame_`, the target
sink `frame_` (the sink's received pose; `none` = no associated sink), the
scalar parameters, the four cache-validity flags plus the spline-cache flag,
the four window cursors as indices into the store, the cached spline
coefficients `v1`/`v2`, and the sampled path cache `path_`.  The timer is
represented by `interpolationStarted_` alone. -/
@[ext]
structure InterpState where
  keyFrames : List KeyFrame
  frame : Option Pose
  period : ℤ
  interpolationTime : ℚ
  interpolationSpeed : ℚ
  interpolationStarted : Bool
  closedPath : Bool
  loopInterpolation : Bool
  pathIsValid : Bool
  valuesAreValid : Bool
  currentFrameValid : Bool
  splineCacheIsValid : Bool
  cur0 : ℕ
  cur1 : ℕ
  cur2 : ℕ
  cur3 : ℕ
  v1 : Vec
  v2 : Vec
  path : List Pose
deriving DecidableEq, Repr

/-- Time of the keyframe at index `i` (`currentFrame_[k]->current()->time()`
style access); out-of-range reads give the placeholder `dKF`. -/
def kfTime (kfs : List KeyFrame) (i : ℕ) : ℚ := (kfs.getD i dKF).time

/-- `KeyFrameInterpolator::firstTime()`: 0.0 on an empty path, else the first
keyframe's time. -/
def firstTime (s : InterpState) : ℚ :=
  if s.keyFrames.isEmpty then 0 else (s.keyFrames.getD 0 dKF).time

/-- `KeyFrameInterpolator::lastTime()`: 0.0 on an empty path, else the last
keyframe's time. -/
def lastTime (s : InterpState) : ℚ :=
  if s.keyFrames.isEmpty then 0
  else (s.keyFrames.getD (s.keyFrames.length - 1) dKF).time

/-- `keyFrame_.getFirst()->time()` (unchecked access used by `update` and
`startInterpolation`, where the store is known non-empty). -/
def firstKFTime (s : InterpState) : ℚ := (s.keyFrames.getD 0 dKF).time

/-- `keyFrame_.getLast()->time()` (unchecked access). -/
def lastKFTime (s : InterpState) : ℚ :=
  (s.keyFrames.getD (s.keyFrames.length - 1) dKF).time

/-- `KeyFrameInterpolator::stopInterpolation()`: stop the timer, clear the
started flag. -/
def stopInterpolation (s : InterpState) : InterpState :=
  { s with interpolationStarted := false }

/-- `KeyFrameInterpolator::resetInterpolation()`: stop, then reset
`interpolationTime_` to `firstTime()`. -/
def resetInterpolation (s : InterpState) : InterpState :=
  let s1 := stopInterpolation s
  { s1 with interpolationTime := firstTime s1 }

/-- `KeyFrameInterpolator::addKeyFrame(const Frame& frame, float time)`:
anchor `interpolationTime_` on a first append, reject (with a warning) a
time smaller than the last keyframe's, else append; then invalidate the
value/path/window caches and `resetInterpolation()`. -/
def addKeyFrameVal (fr : Pose) (time : ℚ) (s : InterpState) : InterpState :=
  let s1 := if s.keyFrames.isEmpty then { s with interpolationTime := time } else s
  let s2 :=
    if ¬s1.keyFrames.isEmpty ∧ (s1.keyFrames.getLastD dKF).time > time then
      s1
    else
      { s1 with keyFrames := s1.keyFrames ++ [mkKeyFrameVal fr time] }
  resetInterpolation
    { s2 with valuesAreValid := false, pathIsValid := false, currentFrameValid := false }

/-- `KeyFrameInterpolator::addKeyFrame(const Frame* frame, float time)`:
a null `frame` pointer is silently ignored (immediate return); otherwise as
the by-value overload but the keyframe keeps the live-source reference. -/
def addKeyFramePtr (src : Option Pose) (time : ℚ) (s : InterpState) : InterpState :=
  match src with
  | none => s
  | some fr =>
      let s1 := if s.keyFrames.isEmpty then { s with interpolationTime := time } else s
      let s2 :=
        if ¬s1.keyFrames.isEmpty ∧ (s1.keyFrames.getLastD dKF).time > time then
          s1
        else
          { s1 with keyFrames := s1.keyFrames ++ [mkKeyFramePtr fr time] }
      resetInterpolation
        { s2 with valuesAreValid := false, pathIsValid := false, currentFrameValid := false }

/-- Refresh wrapper: run `updateModifiedFrameValues` on the store and set
`valuesAreValid_` (the function's last line). -/
def refreshState (sqTangent : Quat → Quat → Quat → Quat) (s : InterpState) :
    InterpState :=
  { s with keyFrames := updateModifiedFrameValues sqTangent s.keyFrames,
           valuesAreValid := true }

/-- First `while` of `updateCurrentKeyFrameForTime`: walk cursor 1 backwards
while its keyframe's time exceeds `t`, stopping at the first keyframe; the
Boolean records whether the loop body ran at least once (which clears
`currentFrameValid_`). -/
def seekBack (kfs : List KeyFrame) (t : ℚ) : ℕ → ℕ × Bool
  | 0 => if kfTime kfs 0 > t then (0, true) else (0, false)
  | i + 1 =>
      if kfTime kfs (i + 1) > t then ((seekBack kfs t i).1, true)
      else (i + 1, false)

/-- Structural core of `seekFwd`: `fuel` is always called with
`kfs.length - i`, so the zero-fuel fallback inside the not-at-last branch is
unreachable (`i + 1 < kfs.length` forces positive fuel). -/
def seekFwdAux (kfs : List KeyFrame) (t : ℚ) : ℕ → ℕ → ℕ × Bool
  | fuel, i =>
    if kfTime kfs i < t then
      if kfs.length ≤ i + 1 then (i, true)
      else
        match fuel with
        | 0 => (i, true)
        | f + 1 => ((seekFwdAux kfs t f (i + 1)).1, true)
    else (i, false)

/-- Second `while` of `updateCurrentKeyFrameForTime`: walk cursor 2 forward
while its keyframe's time is below `t`, stopping at the last keyframe; the
Boolean records whether the loop body ran at least once. -/
def seekFwd (kfs : List KeyFrame) (t : ℚ) (i : ℕ) : ℕ × Bool :=
  seekFwdAux kfs t (kfs.length - i) i

/-- `KeyFrameInterpolator::updateCurrentKeyFrameForTime` (the Segment
Tracker): reset cursor 1 to the first keyframe when the window is invalid,
walk cursor 1 back and cursor 2 forward, and when anything moved rebuild the
4-cursor window (stepping cursor 1 back once if `t` is strictly below cursor
2's time, clamping cursors 0 and 3), revalidating the window and
invalidating the spline cache. -/
def updateCurrentKeyFrameForTime (t : ℚ) (s : InterpState) : InterpState :=
  let kfs := s.keyFrames
  let c10 := if s.currentFrameValid then s.cur1 else 0
  let r1 := seekBack kfs t c10
  let valid1 := s.currentFrameValid && !r1.2
  let c20 := if valid1 then s.cur2 else r1.1
  let r2 := seekFwd kfs t c20
  let valid2 := valid1 && !r2.2
  if valid2 then s
  else
    let c2 := r2.1
    let c1 := if c2 ≠ 0 ∧ t < kfTime kfs c2 then c2 - 1 else c2
    let c0 := if c1 ≠ 0 then c1 - 1 else c1
    let c3 := if c2 + 1 < kfs.length then c2 + 1 else c2
    { s with cur0 := c0, cur1 := c1, cur2 := c2, cur3 := c3,
             currentFrameValid := true, splineCacheIsValid := false }

/-- Cubic coefficient `v1 = 3*delta - 2*tgP1 - tgP2` of `updateSplineCache`. -/
def splineV1 (k1 k2 : KeyFrame) : Vec :=
  (3 : ℚ) • (k2.p - k1.p) - (2 : ℚ) • k1.tgP - k2.tgP

/-- Cubic coefficient `v2 = -2*delta + tgP1 + tgP2` of `updateSplineCache`. -/
def splineV2 (k1 k2 : KeyFrame) : Vec :=
  (-2 : ℚ) • (k2.p - k1.p) + k1.tgP + k2.tgP

/-- `KeyFrameInterpolator::updateSplineCache`: recompute `v1`/`v2` from the
bracketing cursors and validate the spline cache. -/
def updateSplineCache (s : InterpState) : InterpState :=
  let k1 := s.keyFrames.getD s.cur1 dKF
  let k2 := s.keyFrames.getD s.cur2 dKF
  { s with v1 := splineV1 k1 k2, v2 := splineV2 k1 k2, splineCacheIsValid := true }

/-- Lazy-refresh guard `if (!valuesAreValid_) updateModifiedFrameValues();`
of `interpolateAtTime` (and `drawPath`). -/
def ensureValues (sqTangent : Quat → Quat → Quat → Quat) (s : InterpState) :
    InterpState :=
  if s.valuesAreValid then s else refreshState sqTangent s

/-- Lazy-refresh guard `if (!splineCacheIsValid_) updateSplineCache();` of
`interpolateAtTime`. -/
def ensureSpline (s : InterpState) : InterpState :=
  if s.splineCacheIsValid then s else updateSplineCache s

/-- `KeyFrameInterpolator::interpolateAtTime(float time)` (the Evaluator):
set `interpolationTime_`, no-op when the store is empty or no sink is
associated, lazily refresh values / window / spline cache, then apply the
cubic position and squad orientation at the normalized parameter `alpha`
to the sink and emit `interpolated()`. -/
def interpolateAtTime (sqTangent : Quat → Quat → Quat → Quat)
    (squad : Quat → Quat → Quat → Quat → ℚ → Quat)
    (t : ℚ) (s : InterpState) : InterpState × List Event :=
  let s0 := { s with interpolationTime := t }
  if s0.keyFrames.isEmpty ∨ s0.frame.isNone then (s0, [])
  else
    let s1 := ensureValues sqTangent s0
    let s2 := updateCurrentKeyFrameForTime t s1
    let s3 := ensureSpline s2
    let k1 := s3.keyFrames.getD s3.cur1 dKF
    let k2 := s3.keyFrames.getD s3.cur2 dKF
    let dt := k2.time - k1.time
    let alpha : ℚ := if dt = 0 then 0 else (t - k1.time) / dt
    let pos := k1.p + alpha • (k1.tgP + alpha • (s3.v1 + alpha • s3.v2))
    let q := squad k1.q k1.tgQ k2.tgQ k2.q alpha
    ({ s3 with frame := some ⟨pos, q⟩ }, [Event.interpolated])

/-- `KeyFrameInterpolator::update()` (one Playback Driver tick): evaluate at
the current time, advance by `speed * period / 1000`, then apply the
loop/stop boundary policy, emitting `endReached()` whenever a boundary was
crossed. -/
def update (sqTangent : Quat → Quat → Quat → Quat)
    (squad : Quat → Quat → Quat → Quat → ℚ → Quat)
    (s : InterpState) : InterpState × List Event :=
  let r1 := interpolateAtTime sqTangent squad s.interpolationTime s
  let s1 := r1.1
  let s2 := { s1 with interpolationTime :=
                s1.interpolationTime + s1.interpolationSpeed * (s1.period : ℚ) / 1000 }
  if s2.interpolationTime > lastKFTime s2 then
    if s2.loopInterpolation then
      ({ s2 with interpolationTime :=
           firstKFTime s2 + s2.interpolationTime - lastKFTime s2 },
       r1.2 ++ [Event.endReached])
    else
      let r2 := interpolateAtTime sqTangent squad (lastKFTime s2) s2
      (stopInterpolation r2.1, r1.2 ++ r2.2 ++ [Event.endReached])
  else
    if s2.interpolationTime < firstKFTime s2 then
      if s2.loopInterpolation then
        ({ s2 with interpolationTime :=
             lastKFTime s2 - firstKFTime s2 + s2.interpolationTime },
         r1.2 ++ [Event.endReached])
      else
        let r2 := interpolateAtTime sqTangent squad (firstKFTime s2) s2
        (stopInterpolation r2.1, r1.2 ++ r2.2 ++ [Event.endReached])
    else (s2, r1.2)

/-- `KeyFrameInterpolator::startInterpolation(int period)`: adopt a
non-negative period, and on a non-empty store rewind out-of-range times,
start the timer, set the started flag and perform one immediate tick. -/
def startInterpolation (sqTangent : Quat → Quat → Quat → Quat)
    (squad : Quat → Quat → Quat → Quat → ℚ → Quat)
    (period : ℤ) (s : InterpState) : InterpState × List Event :=
  let s0 := if 0 ≤ period then { s with period := period } else s
  if s0.keyFrames.isEmpty then (s0, [])
  else
    let s1 :=
      if 0 < s0.interpolationSpeed ∧ lastKFTime s0 ≤ s0.interpolationTime then
        { s0 with interpolationTime := firstKFTime s0 }
      else s0
    let s2 :=
      if s1.interpolationSpeed < 0 ∧ s1.interpolationTime ≤ firstKFTime s1 then
        { s1 with interpolationTime := lastKFTime s1 }
      else s1
    update sqTangent squad { s2 with interpolationStarted := true }

/-- One segment of the Path Sampler loop in
`KeyFrameInterpolator::drawPath`: 30 poses from the cubic/squad formulas at
`alpha = step/30`, `step = 0..29`, between keyframes `kf_[1]` and `kf_[2]`. -/
def sampleSegment (squad : Quat → Quat → Quat → Quat → ℚ → Quat)
    (k1 k2 : KeyFrame) : List Pose :=
  (List.range 30).map fun (step : ℕ) =>
    let alpha : ℚ := (step : ℚ) / 30
    let diff := k2.p - k1.p
    let w1 := (3 : ℚ) • diff - (2 : ℚ) • k1.tgP - k2.tgP
    let w2 := (-2 : ℚ) • diff + k1.tgP + k2.tgP
    ⟨k1.p + alpha • (k1.tgP + alpha • (w1 + alpha • w2)),
     squad k1.q k1.tgQ k2.tgQ k2.q alpha⟩

/-- The sliding-window loop of `drawPath`: each iteration samples one
segment between the consecutive pair `(kf_[1], kf_[2])` and shifts. -/
def samplePairs (squad : Quat → Quat → Quat → Quat → ℚ → Quat) :
    List KeyFrame → List Pose
  | [] => []
  | [_] => []
  | k1 :: k2 :: rest => sampleSegment squad k1 k2 ++ samplePairs squad (k2 :: rest)

/-- Path recomputation body of `drawPath`: a single pose for a one-keyframe
path (`getFirst() == getLast()`), otherwise all segment samples followed by
the last keyframe's exact pose. -/
def drawPathCompute (squad : Quat → Quat → Quat → Quat → ℚ → Quat)
    (kfs : List KeyFrame) : List Pose :=
  match kfs with
  | [] => []
  | [k] => [⟨k.p, k.q⟩]
  | k1 :: k2 :: rest =>
      samplePairs squad (k1 :: k2 :: rest) ++
        [⟨((k1 :: k2 :: rest).getLastD dKF).p, ((k1 :: k2 :: rest).getLastD dKF).q⟩]

/-- Cache-maintenance part of `KeyFrameInterpolator::drawPath` (the Path
Sampler; the subsequent OpenGL drawing of `path_` is outside the core):
when `pathIsValid_` is clear, clear `path_`, return early on an empty
store, refresh values if needed, then recompute and validate the path. -/
def drawPath (sqTangent : Quat → Quat → Quat → Quat)
    (squad : Quat → Quat → Quat → Quat → ℚ → Quat)
    (s : InterpState) : InterpState :=
  if s.pathIsValid then s
  else if s.keyFrames.isEmpty then { s with path := [] }
  else
    let s1 := if s.valuesAreValid then s else refreshState sqTangent s
    { s1 with path := drawPathCompute squad s1.keyFrames, pathIsValid := true }

/-- Modelled from the spec: the cubic position polynomial claimed for the
Evaluator, written exactly as the claim states it (delta, v1, v2, alpha). -/
def specPosition (k1 k2 : KeyFrame) (t : ℚ) : Vec :=
  let delta := k2.p - k1.p
  let w1 := (3 : ℚ) • delta - (2 : ℚ) • k1.tgP - k2.tgP
  let w2 := (-2 : ℚ) • delta + k1.tgP + k2.tgP
  let alpha : ℚ := if k2.time - k1.time = 0 then 0 else (t - k1.time) / (k2.time - k1.time)
  k1.p + alpha • (k1.tgP + alpha • (w1 + alpha • w2))

/-- Modelled from the spec: a concrete stand-in for the transcendental
`Quaternion::squad` satisfying the spec's endpoint laws, used to instantiate
witnesses (componentwise linear blend of the two end quaternions). -/
def squadLin (a _b _c d : Quat) (t : ℚ) : Quat :=
  ⟨a.x + t * (d.x - a.x), a.y + t * (d.y - a.y),
   a.z + t * (d.z - a.z), a.w + t * (d.w - a.w)⟩

/-- Modelled from the spec: a concrete stand-in for the transcendental
`Quaternion::squadTangent` used to instantiate witnesses. -/
def sqTangentMid (_a b _c : Quat) : Quat := b

/-! ### Basic preservation lemmas -/

theorem stepKF_time (p : Quat) (kf : KeyFrame) : (stepKF p kf).time = kf.time := by
  obtain ⟨t, pp, qq, tp, tq, fr⟩ := kf
  cases fr <;> simp only [stepKF, updateValuesFromPointer, flipOrientation] <;> split <;> rfl

theorem stepKF_frame (p : Quat) (kf : KeyFrame) : (stepKF p kf).frame = kf.frame := by
  obtain ⟨t, pp, qq, tp, tq, fr⟩ := kf
  cases fr <;> simp only [stepKF, updateValuesFromPointer, flipOrientation] <;> split <;> rfl

theorem stepKF_tgP (p : Quat) (kf : KeyFrame) : (stepKF p kf).tgP = kf.tgP := by
  obtain ⟨t, pp, qq, tp, tq, fr⟩ := kf
  cases fr <;> simp only [stepKF, updateValuesFromPointer, flipOrientation] <;> split <;> rfl

theorem stepKF_tgQ (p : Quat) (kf : KeyFrame) : (stepKF p kf).tgQ = kf.tgQ := by
  obtain ⟨t, pp, qq, tp, tq, fr⟩ := kf
  cases fr <;> simp only [stepKF, updateValuesFromPointer, flipOrientation] <;> split <;> rfl

theorem computeTangent_time (sqT : Quat → Quat → Quat → Quat) (a b kf : KeyFrame) :
    (computeTangent sqT a b kf).time = kf.time := rfl

theorem length_updateLoop (l : List KeyFrame) : ∀ p, (updateLoop p l).length = l.length := by
  induction l with
  | nil => intro p; rfl
  | cons kf rest ih => intro p; simp [updateLoop, ih]

theorem length_tangentLoop (sqT : Quat → Quat → Quat → Quat) (l : List KeyFrame) :
    ∀ prev, (tangentLoop sqT prev l).length = l.length := by
  induction l with
  | nil => intro prev; rfl
  | cons kf rest ih => intro prev; simp [tangentLoop, ih]

theorem length_updateModifiedFrameValues (sqT : Quat → Quat → Quat → Quat)
    (kfs : List KeyFrame) :
    (updateModifiedFrameValues sqT kfs).length = kfs.length := by
  cases kfs with
  | nil => rfl
  | cons k0 tl =>
      simp [updateModifiedFrameValues, length_tangentLoop, length_updateLoop]

theorem kfTime_updateLoop (l : List KeyFrame) :
    ∀ p i, kfTime (updateLoop p l) i = kfTime l i := by
  induction l with
  | nil => intro p i; rfl
  | cons kf rest ih =>
      intro p i
      cases i with
      | zero => simp [updateLoop, kfTime, stepKF_time]
      | succ j =>
          simp only [updateLoop, kfTime, List.getD_cons_succ]
          exact ih _ j

theorem kfTime_tangentLoop (sqT : Quat → Quat → Quat → Quat) (l : List KeyFrame) :
    ∀ prev i, kfTime (tangentLoop sqT prev l) i = kfTime l i := by
  induction l with
  | nil => intro prev i; rfl
  | cons kf rest ih =>
      intro prev i
      cases i with
      | zero => simp [tangentLoop, kfTime, computeTangent_time]
      | succ j =>
          simp only [tangentLoop, kfTime, List.getD_cons_succ]
          exact ih _ j

theorem kfTime_updateModifiedFrameValues (sqT : Quat → Quat → Quat → Quat)
    (kfs : List KeyFrame) (i : ℕ) :
    kfTime (updateModifiedFrameValues sqT kfs) i = kfTime kfs i := by
  cases kfs with
  | nil => rfl
  | cons k0 tl =>
      simp [updateModifiedFrameValues, kfTime_tangentLoop, kfTime_updateLoop]

/-! ### Concrete states for witnesses and counterexamples -/

/-- A default pose used by concrete states. -/
def cPose : Pose := ⟨⟨0, 0, 0⟩, qid⟩

/-- Keyframe at the origin, time 0. -/
def cKF0 : KeyFrame := mkKeyFrameVal ⟨⟨0, 0, 0⟩, qid⟩ 0

/-- Keyframe at (1,0,0), time 1. -/
def cKF1 : KeyFrame := mkKeyFrameVal ⟨⟨1, 0, 0⟩, qid⟩ 1

/-- Keyframe at (2,0,0), also at time 1 (a duplicate time, which `addKeyFrame`
accepts since only strictly decreasing times are rejected). -/
def cKF1b : KeyFrame := mkKeyFrameVal ⟨⟨2, 0, 0⟩, qid⟩ 1

/-- Keyframe at (1,1,0), time 2. -/
def cKF2 : KeyFrame := mkKeyFrameVal ⟨⟨1, 1, 0⟩, qid⟩ 2

/-- A quiescent interpolator state over the given store, with an associated
sink and refreshed values. -/
def baseState (kfs : List KeyFrame) : InterpState :=
  ⟨kfs, some cPose, 40, 0, 1, false, false, false, false, true, false, false,
   0, 0, 0, 0, 0, 0, []⟩

/-- A running playback state over two keyframes (times 0 and 2), mid-path. -/
def c1State : InterpState :=
  { baseState [cKF0, cKF2] with interpolationTime := 1, interpolationStarted := true }

/-- An empty-store state (sink present, stopped). -/
def c8State : InterpState := baseState []

/-! ### Claim C1 -/

/-- Claim C1 (counterexample): the claim says an append with non-increasing
time is rejected with `count()` unchanged and playback undisturbed.  On the
code, (a) a rejected append (strictly smaller time) still stops a running
interpolation and rewinds `interpolationTime` to `firstTime()` (the
unconditional `resetInterpolation()`), and (b) an append at a time *equal*
to the last keyframe's time (non-increasing) is accepted, growing the store
from 2 to 3 keyframes. -/
theorem addKeyFrame_nonIncreasing_cex :
    ((addKeyFrameVal cPose 1 c1State).interpolationStarted = false ∧
      c1State.interpolationStarted = true ∧
      (addKeyFrameVal cPose 1 c1State).interpolationTime = 0 ∧
      c1State.interpolationTime = 1 ∧
      (addKeyFrameVal cPose 1 c1State).keyFrames = c1State.keyFrames) ∧
    ((addKeyFrameVal cPose 2 c1State).keyFrames.length = 3 ∧
      c1State.keyFrames.length = 2) := by
  decide

/-- Claim C1 (amended): an append whose time is strictly below the last
keyframe's time is rejected: the store (hence `count()`) is unchanged.  An
append at exactly the last time is accepted.  Even a rejected append clears
the value/path/window caches and resets playback: interpolation stops and
`interpolationTime` becomes `firstTime()`. -/
theorem addKeyFrame_reject_strictLt (fr : Pose) (t : ℚ) (s : InterpState)
    (hne : s.keyFrames ≠ []) (hlt : t < (s.keyFrames.getLastD dKF).time) :
    (addKeyFrameVal fr t s).keyFrames = s.keyFrames ∧
    (addKeyFrameVal fr t s).interpolationStarted = false ∧
    (addKeyFrameVal fr t s).interpolationTime = firstTime s ∧
    (addKeyFrameVal fr t s).valuesAreValid = false ∧
    (addKeyFrameVal fr t s).pathIsValid = false ∧
    (addKeyFrameVal fr t s).currentFrameValid = false := by
  have hE : s.keyFrames.isEmpty = false := by
    cases h : s.keyFrames with
    | nil => exact absurd h hne
    | cons a l => rfl
  have hlt2 : t < (s.keyFrames.getLast?.getD dKF).time := by
    rw [← List.getLastD_eq_getLast?]; exact hlt
  simp [addKeyFrameVal, resetInterpolation, stopInterpolation, firstTime, hE, hlt2, hne]

/-- Witness for the amended claim C1 at a concrete running state. -/
theorem addKeyFrame_reject_strictLt_witness :
    (c1State.keyFrames ≠ [] ∧ (1 : ℚ) < (c1State.keyFrames.getLastD dKF).time) ∧
    ((addKeyFrameVal cPose 1 c1State).keyFrames = c1State.keyFrames ∧
      (addKeyFrameVal cPose 1 c1State).interpolationStarted = false ∧
      (addKeyFrameVal cPose 1 c1State).interpolationTime = firstTime c1State ∧
      (addKeyFrameVal cPose 1 c1State).valuesAreValid = false ∧
      (addKeyFrameVal cPose 1 c1State).pathIsValid = false ∧
      (addKeyFrameVal cPose 1 c1State).currentFrameValid = false) :=
  ⟨⟨by decide, by decide⟩,
   addKeyFrame_reject_strictLt cPose 1 c1State (by decide) (by decide)⟩

/-! ### Claim C10 -/

/-- Claim C10: appending a keyframe by live-source reference with a null
reference is a complete no-op — store, caches, flags, `interpolationTime`
and playback state are all untouched (the function returns before doing
anything). -/
theorem addKeyFramePtr_null_noop (t : ℚ) (s : InterpState) :
    addKeyFramePtr none t s = s := rfl

/-! ### Claim C8 -/

/-- Claim C8: evaluating on an empty store or with no associated sink
mutates no sink and emits no notification, and starting playback on an
empty store leaves the driver Stopped. -/
theorem empty_or_noSink_noop (sqT : Quat → Quat → Quat → Quat)
    (squad : Quat → Quat → Quat → Quat → ℚ → Quat)
    (t : ℚ) (p : ℤ) (s : InterpState) :
    (s.keyFrames = [] ∨ s.frame = none →
      (interpolateAtTime sqT squad t s).1.frame = s.frame ∧
      (interpolateAtTime sqT squad t s).2 = []) ∧
    (s.keyFrames = [] → s.interpolationStarted = false →
      (startInterpolation sqT squad p s).1.interpolationStarted = false) := by
  constructor
  · intro h
    have hc : ({ s with interpolationTime := t } : InterpState).keyFrames.isEmpty = true ∨
        ({ s with interpolationTime := t } : InterpState).frame.isNone = true := by
      rcases h with h | h
      · left; simp [h]
      · right; simp [h]
    simp only [interpolateAtTime]
    rw [if_pos (by exact_mod_cast hc)]
    exact ⟨rfl, rfl⟩
  · intro h hstart
    simp only [startInterpolation]
    split
    · rw [if_pos (by simp [h])]
      exact hstart
    · rw [if_pos (by simp [h])]
      exact hstart

/-- Witness for claim C8 at a concrete empty-store state. -/
theorem empty_or_noSink_noop_witness :
    ((interpolateAtTime sqTangentMid squadLin 7 c8State).1.frame = c8State.frame ∧
      (interpolateAtTime sqTangentMid squadLin 7 c8State).2 = []) ∧
    (startInterpolation sqTangentMid squadLin 40 c8State).1.interpolationStarted = false :=
  ⟨(empty_or_noSink_noop sqTangentMid squadLin 7 40 c8State).1 (Or.inl rfl),
   (empty_or_noSink_noop sqTangentMid squadLin 7 40 c8State).2 rfl rfl⟩

/-! ### Claim C3: orientation continuity after refresh -/

/-- Adjacent orientation dot products are non-negative along the list. -/
def AdjNonneg : List KeyFrame → Prop
  | [] => True
  | [_] => True
  | a :: b :: rest => 0 ≤ Quat.dot a.q b.q ∧ AdjNonneg (b :: rest)

theorem flipOrientation_dot_nonneg (p : Quat) (kf : KeyFrame) :
    0 ≤ Quat.dot p (flipOrientation p kf).q := by
  by_cases h : Quat.dot p kf.q < 0
  · simp only [flipOrientation, if_pos h, Quat.dot_negate_right]
    linarith
  · simp only [flipOrientation, if_neg h]
    linarith

theorem stepKF_dot_nonneg (p : Quat) (kf : KeyFrame) :
    0 ≤ Quat.dot p (stepKF p kf).q :=
  flipOrientation_dot_nonneg p (updateValuesFromPointer kf)

theorem updateLoop_head_dot (p : Quat) (l : List KeyFrame) :
    ∀ a ∈ (updateLoop p l).head?, 0 ≤ Quat.dot p a.q := by
  cases l with
  | nil => intro a ha; simp [updateLoop] at ha
  | cons kf rest =>
      intro a ha
      simp only [updateLoop, List.head?] at ha
      cases ha
      exact stepKF_dot_nonneg p kf

theorem adjNonneg_updateLoop (l : List KeyFrame) : ∀ p, AdjNonneg (updateLoop p l) := by
  induction l with
  | nil => intro p; trivial
  | cons kf rest ih =>
      intro p
      simp only [updateLoop]
      cases hu : updateLoop (stepKF p kf).q rest with
      | nil => trivial
      | cons b tl =>
          refine ⟨?_, ?_⟩
          · have := updateLoop_head_dot (stepKF p kf).q rest
            rw [hu] at this
            exact this b rfl
          · have := ih (stepKF p kf).q
            rw [hu] at this
            exact this

theorem adjNonneg_congr_q (l l' : List KeyFrame)
    (h : l.map KeyFrame.q = l'.map KeyFrame.q) : AdjNonneg l → AdjNonneg l' := by
  induction l generalizing l' with
  | nil =>
      cases l' with
      | nil => intro; trivial
      | cons b tl => intro _; simp at h
  | cons a tla ih =>
      cases l' with
      | nil => intro _; simp at h
      | cons b tlb =>
          simp only [List.map_cons, List.cons.injEq] at h
          obtain ⟨hq, htl⟩ := h
          cases tla with
          | nil =>
              cases tlb with
              | nil => intro _; trivial
              | cons c tlc => intro _; simp at htl
          | cons a2 tla2 =>
              cases tlb with
              | nil => intro _; simp at htl
              | cons b2 tlb2 =>
                  intro hadj
                  obtain ⟨h1, h2⟩ := hadj
                  have hq2 : a2.q = b2.q := by
                    simp only [List.map_cons, List.cons.injEq] at htl
                    exact htl.1
                  exact ⟨by rw [← hq, ← hq2]; exact h1, ih (b2 :: tlb2) htl h2⟩

theorem map_q_tangentLoop (sqT : Quat → Quat → Quat → Quat) (l : List KeyFrame) :
    ∀ prev, (tangentLoop sqT prev l).map KeyFrame.q = l.map KeyFrame.q := by
  induction l with
  | nil => intro prev; rfl
  | cons kf rest ih =>
      intro prev
      simp only [tangentLoop, List.map_cons, computeTangent]
      exact congrArg _ (ih _)

theorem adjNonneg_updateModifiedFrameValues (sqT : Quat → Quat → Quat → Quat)
    (kfs : List KeyFrame) : AdjNonneg (updateModifiedFrameValues sqT kfs) := by
  cases kfs with
  | nil => trivial
  | cons k0 tl =>
      simp only [updateModifiedFrameValues]
      exact adjNonneg_congr_q _ _
        (map_q_tangentLoop sqT (updateLoop k0.q (k0 :: tl)) _).symm
        (adjNonneg_updateLoop (k0 :: tl) k0.q)

theorem adjNonneg_getD (l : List KeyFrame) (h : AdjNonneg l) :
    ∀ i, i + 1 < l.length → 0 ≤ Quat.dot (l.getD i dKF).q (l.getD (i + 1) dKF).q := by
  induction l with
  | nil => intro i hi; simp at hi
  | cons a tl ih =>
      intro i hi
      cases tl with
      | nil => simp at hi
      | cons b tl2 =>
          obtain ⟨h1, h2⟩ := h
          cases i with
          | zero => simpa using h1
          | succ j =>
              simp only [List.getD_cons_succ]
              exact ih h2 j (by simpa using hi)

/-- Claim C3: after the Pose Resolver's refresh (`updateModifiedFrameValues`),
every pair of consecutive keyframes has non-negative orientation quaternion
dot product — the continuity invariant holds over the whole sequence. -/
theorem refresh_orientation_continuity (sqT : Quat → Quat → Quat → Quat)
    (kfs : List KeyFrame) (i : ℕ)
    (hi : i + 1 < (updateModifiedFrameValues sqT kfs).length) :
    0 ≤ Quat.dot ((updateModifiedFrameValues sqT kfs).getD i dKF).q
      ((updateModifiedFrameValues sqT kfs).getD (i + 1) dKF).q :=
  adjNonneg_getD _ (adjNonneg_updateModifiedFrameValues sqT kfs) i hi

/-- Keyframes whose raw orientations alternate in sign: a 3-keyframe store
exercising the continuity fix. -/
def c3List : List KeyFrame :=
  [⟨0, 0, qid, 0, qid, none⟩,
   ⟨1, ⟨1, 0, 0⟩, ⟨0, 0, 0, -1⟩, 0, qid, none⟩,
   ⟨2, ⟨2, 0, 0⟩, ⟨0, 0, 0, 1⟩, 0, qid, some ⟨⟨5, 0, 0⟩, ⟨0, 0, 0, -1⟩⟩⟩]

/-- Witness for claim C3 on a store with sign-alternating orientations. -/
theorem refresh_orientation_continuity_witness :
    (0 + 1 < (updateModifiedFrameValues sqTangentMid c3List).length ∧
      0 ≤ Quat.dot ((updateModifiedFrameValues sqTangentMid c3List).getD 0 dKF).q
        ((updateModifiedFrameValues sqTangentMid c3List).getD 1 dKF).q) ∧
    (1 + 1 < (updateModifiedFrameValues sqTangentMid c3List).length ∧
      0 ≤ Quat.dot ((updateModifiedFrameValues sqTangentMid c3List).getD 1 dKF).q
        ((updateModifiedFrameValues sqTangentMid c3List).getD 2 dKF).q) :=
  ⟨⟨by decide, refresh_orientation_continuity sqTangentMid c3List 0 (by decide)⟩,
   ⟨by decide, refresh_orientation_continuity sqTangentMid c3List 1 (by decide)⟩⟩

/-! ### Claim C7: idempotence of the Pose Resolver refresh -/

/-- Orientation-level continuity fix: the new value of `q_` after
`flipOrientation prev` on a keyframe whose orientation is `q`. -/
def flipQ (prev q : Quat) : Quat :=
  if Quat.dot prev q < 0 then q.negate else q

theorem flipOrientation_eq (prev : Quat) (kf : KeyFrame) :
    flipOrientation prev kf = { kf with q := flipQ prev kf.q } := by
  simp only [flipOrientation, flipQ]
  split
  · rfl
  · rfl

theorem flipQ_nonneg (p q : Quat) : 0 ≤ Quat.dot p (flipQ p q) := by
  by_cases h : Quat.dot p q < 0
  · simp only [flipQ, if_pos h, Quat.dot_negate_right]; linarith
  · simp only [flipQ, if_neg h]; linarith

theorem flipQ_idem (p q : Quat) : flipQ p (flipQ p q) = flipQ p q := by
  have h := flipQ_nonneg p q
  show (if Quat.dot p (flipQ p q) < 0 then (flipQ p q).negate else flipQ p q) = flipQ p q
  rw [if_neg (not_lt.mpr h)]

theorem flipQ_self (q : Quat) : flipQ q q = q := by
  simp only [flipQ, if_neg (not_lt.mpr (Quat.dot_self_nonneg q))]

theorem flipQ_self_fix (p q : Quat) : flipQ (flipQ p q) q = flipQ p q := by
  by_cases h : Quat.dot p q < 0
  · simp only [flipQ, if_pos h]
    by_cases h2 : Quat.dot q.negate q < 0
    · simp only [flipQ, if_pos h2]
    · have hdot : Quat.dot q.negate q = -Quat.dot q q := by
        simp [Quat.dot, Quat.negate]; ring
      have hqq : Quat.dot q q = 0 := by
        have := Quat.dot_self_nonneg q
        rw [hdot] at h2
        linarith
      rw [if_neg h2]
      exact (Quat.negate_eq_self_of_dot_self_zero hqq).symm
  · simp only [flipQ, if_neg h]
    rw [if_neg (not_lt.mpr (Quat.dot_self_nonneg q))]

theorem stepKF_mk_none (p : Quat) (t : ℚ) (pp : Vec) (qq : Quat) (tp : Vec) (tq : Quat) :
    stepKF p ⟨t, pp, qq, tp, tq, none⟩ = ⟨t, pp, flipQ p qq, tp, tq, none⟩ := by
  simp [stepKF, updateValuesFromPointer, flipOrientation_eq]

theorem stepKF_mk_some (p : Quat) (t : ℚ) (pp : Vec) (qq : Quat) (tp : Vec) (tq : Quat)
    (src : Pose) :
    stepKF p ⟨t, pp, qq, tp, tq, some src⟩ = ⟨t, src.p, flipQ p src.q, tp, tq, some src⟩ := by
  simp [stepKF, updateValuesFromPointer, flipOrientation_eq]

theorem stepKF_idem_same (p : Quat) (kf : KeyFrame) :
    stepKF p (stepKF p kf) = stepKF p kf := by
  obtain ⟨t, pp, qq, tp, tq, fr⟩ := kf
  cases fr with
  | none => rw [stepKF_mk_none, stepKF_mk_none, flipQ_idem]
  | some src => rw [stepKF_mk_some, stepKF_mk_some]

theorem stepKF_self_stable (p : Quat) (kf : KeyFrame) :
    stepKF (stepKF p kf).q (stepKF p kf) = stepKF p kf := by
  obtain ⟨t, pp, qq, tp, tq, fr⟩ := kf
  cases fr with
  | none => rw [stepKF_mk_none, stepKF_mk_none, flipQ_self]
  | some src => rw [stepKF_mk_some, stepKF_mk_some, flipQ_self_fix]

/-- Pointwise fixpoint property of the first refresh loop, threaded the same
way the loop threads its `prevQ`. -/
def Stable : Quat → List KeyFrame → Prop
  | _, [] => True
  | p, kf :: rest => stepKF p kf = kf ∧ Stable kf.q rest

theorem stable_updateLoop (l : List KeyFrame) : ∀ p, Stable p (updateLoop p l) := by
  induction l with
  | nil => intro p; trivial
  | cons kf rest ih =>
      intro p
      exact ⟨stepKF_idem_same p kf, ih (stepKF p kf).q⟩

theorem updateLoop_of_stable (l : List KeyFrame) : ∀ p, Stable p l → updateLoop p l = l := by
  induction l with
  | nil => intro p _; rfl
  | cons kf rest ih =>
      intro p h
      obtain ⟨h1, h2⟩ := h
      simp only [updateLoop, h1]
      exact congrArg _ (ih kf.q h2)

/-- The non-derived fields (everything `computeTangent` leaves alone). -/
def CoreEq (a b : KeyFrame) : Prop :=
  a.time = b.time ∧ a.p = b.p ∧ a.q = b.q ∧ a.frame = b.frame

theorem computeTangent_coreEq (sqT : Quat → Quat → Quat → Quat) (a n kf : KeyFrame) :
    CoreEq kf (computeTangent sqT a n kf) :=
  ⟨rfl, rfl, rfl, rfl⟩

theorem coreEq_update_tg {a b : KeyFrame} (h : CoreEq a b) :
    b = { a with tgP := b.tgP, tgQ := b.tgQ } := by
  obtain ⟨h1, h2, h3, h4⟩ := h
  obtain ⟨t, pp, qq, tp, tq, fr⟩ := a
  obtain ⟨t', pp', qq', tp', tq', fr'⟩ := b
  simp_all

theorem stepKF_update_tg (p : Quat) (kf : KeyFrame) (a : Vec) (b : Quat) :
    stepKF p { kf with tgP := a, tgQ := b } = { stepKF p kf with tgP := a, tgQ := b } := by
  obtain ⟨t, pp, qq, tp, tq, fr⟩ := kf
  cases fr with
  | none => simp only [stepKF_mk_none]
  | some src => simp only [stepKF_mk_some]

theorem stepKF_congr_core {a b : KeyFrame} (p : Quat) (h : CoreEq a b)
    (hs : stepKF p a = a) : stepKF p b = b := by
  rw [coreEq_update_tg h, stepKF_update_tg, hs]

theorem tangentLoop_coreEq (sqT : Quat → Quat → Quat → Quat) (l : List KeyFrame) :
    ∀ prev, List.Forall₂ CoreEq l (tangentLoop sqT prev l) := by
  induction l with
  | nil => intro prev; exact List.Forall₂.nil
  | cons kf rest ih =>
      intro prev
      exact List.Forall₂.cons (computeTangent_coreEq sqT _ _ kf) (ih _)

theorem stable_congr_core {l l' : List KeyFrame} (h : List.Forall₂ CoreEq l l') :
    ∀ p, Stable p l → Stable p l' := by
  induction h with
  | nil => intro p _; trivial
  | cons hab htail ih =>
      intro p hst
      obtain ⟨h1, h2⟩ := hst
      refine ⟨stepKF_congr_core p hab h1, ?_⟩
      rw [← hab.2.2.1]
      exact ih _ h2

theorem computeTangent_eq_self {kf : KeyFrame} (sqT : Quat → Quat → Quat → Quat)
    (a n : KeyFrame) (hp : kf.tgP = (1 / 2 : ℚ) • (n.p - a.p))
    (hq : kf.tgQ = sqT a.q kf.q n.q) : computeTangent sqT a n kf = kf := by
  obtain ⟨t, pp, qq, tp, tq, fr⟩ := kf
  simp only [computeTangent] at *
  simp_all

theorem computeTangent_q (sqT : Quat → Quat → Quat → Quat) (a n kf : KeyFrame) :
    (computeTangent sqT a n kf).q = kf.q := rfl

theorem computeTangent_p (sqT : Quat → Quat → Quat → Quat) (a n kf : KeyFrame) :
    (computeTangent sqT a n kf).p = kf.p := rfl

theorem tangentLoop_idem (sqT : Quat → Quat → Quat → Quat) (l : List KeyFrame) :
    ∀ prev prev' : KeyFrame, prev'.p = prev.p → prev'.q = prev.q →
      tangentLoop sqT prev' (tangentLoop sqT prev l) = tangentLoop sqT prev l := by
  induction l with
  | nil => intro prev prev' _ _; rfl
  | cons kf rest ih =>
      intro prev prev' hp hq
      cases rest with
      | nil =>
          simp only [tangentLoop]
          rw [computeTangent_eq_self sqT _ _ (by simp [computeTangent, hp])
            (by simp [computeTangent, hq])]
      | cons r rs =>
          simp only [tangentLoop]
          rw [computeTangent_eq_self sqT _ _ (by simp [computeTangent, hp])
            (by simp [computeTangent, hq])]
          exact congrArg _ (ih _ _ rfl rfl)

theorem tangentLoop_headD_p (sqT : Quat → Quat → Quat → Quat) (prev kf : KeyFrame)
    (rest : List KeyFrame) :
    ((tangentLoop sqT prev (kf :: rest)).headD dKF).p = kf.p := by
  cases rest <;> rfl

theorem tangentLoop_headD_q (sqT : Quat → Quat → Quat → Quat) (prev kf : KeyFrame)
    (rest : List KeyFrame) :
    ((tangentLoop sqT prev (kf :: rest)).headD dKF).q = kf.q := by
  cases rest <;> rfl

theorem tangentLoop_cons_shape (sqT : Quat → Quat → Quat → Quat) (prev kf : KeyFrame)
    (rest : List KeyFrame) :
    ∃ k2 t2, tangentLoop sqT prev (kf :: rest) = k2 :: t2 := by
  cases rest <;> exact ⟨_, _, rfl⟩

theorem umfv_of_fix (sqT : Quat → Quat → Quat → Quat) (l : List KeyFrame)
    (k : KeyFrame) (rest : List KeyFrame) (hshape : l = k :: rest)
    (hfix : updateLoop (l.headD dKF).q l = l) :
    updateModifiedFrameValues sqT l = tangentLoop sqT (l.headD dKF) l := by
  subst hshape
  simp only [List.headD_cons] at hfix
  simp only [updateModifiedFrameValues, hfix, List.headD_cons]

/-- Claim C7: the Pose Resolver refresh is idempotent — with the keyframes'
live sources unchanged, a second `updateModifiedFrameValues` reproduces every
derived value (positions, continuity-fixed orientations and both tangents)
of the first run exactly. -/
theorem refresh_idempotent (sqT : Quat → Quat → Quat → Quat) (kfs : List KeyFrame) :
    updateModifiedFrameValues sqT (updateModifiedFrameValues sqT kfs) =
      updateModifiedFrameValues sqT kfs := by
  cases kfs with
  | nil => rfl
  | cons k0 tl =>
      have hshape : updateLoop k0.q (k0 :: tl) =
          stepKF k0.q k0 :: updateLoop (stepKF k0.q k0).q tl := rfl
      have hrhs : updateModifiedFrameValues sqT (k0 :: tl) =
          tangentLoop sqT (stepKF k0.q k0)
            (stepKF k0.q k0 :: updateLoop (stepKF k0.q k0).q tl) := by
        simp only [updateModifiedFrameValues, hshape, List.headD_cons]
      rw [hrhs]
      -- abbreviate the refreshed list
      obtain ⟨k2, t2, hL⟩ := tangentLoop_cons_shape sqT (stepKF k0.q k0) (stepKF k0.q k0)
        (updateLoop (stepKF k0.q k0).q tl)
      have hstab1 : Stable (stepKF k0.q k0).q
          (stepKF k0.q k0 :: updateLoop (stepKF k0.q k0).q tl) :=
        ⟨stepKF_self_stable k0.q k0, stable_updateLoop tl _⟩
      have hstab2 : Stable (stepKF k0.q k0).q
          (tangentLoop sqT (stepKF k0.q k0)
            (stepKF k0.q k0 :: updateLoop (stepKF k0.q k0).q tl)) :=
        stable_congr_core (tangentLoop_coreEq sqT _ _) _ hstab1
      have hheadq : ((tangentLoop sqT (stepKF k0.q k0)
          (stepKF k0.q k0 :: updateLoop (stepKF k0.q k0).q tl)).headD dKF).q =
          (stepKF k0.q k0).q := tangentLoop_headD_q sqT _ _ _
      have hheadp : ((tangentLoop sqT (stepKF k0.q k0)
          (stepKF k0.q k0 :: updateLoop (stepKF k0.q k0).q tl)).headD dKF).p =
          (stepKF k0.q k0).p := tangentLoop_headD_p sqT _ _ _
      have hfix : updateLoop ((tangentLoop sqT (stepKF k0.q k0)
          (stepKF k0.q k0 :: updateLoop (stepKF k0.q k0).q tl)).headD dKF).q
          (tangentLoop sqT (stepKF k0.q k0)
            (stepKF k0.q k0 :: updateLoop (stepKF k0.q k0).q tl)) =
          tangentLoop sqT (stepKF k0.q k0)
            (stepKF k0.q k0 :: updateLoop (stepKF k0.q k0).q tl) := by
        rw [hheadq]
        exact updateLoop_of_stable _ _ hstab2
      rw [umfv_of_fix sqT _ k2 t2 hL hfix]
      exact tangentLoop_idem sqT _ _ _ hheadp hheadq

/-! ### Claim C6: path sampling counts -/

/-- Default pose placeholder for list lookups. -/
def dPose : Pose := ⟨0, qid⟩

theorem length_sampleSegment (squad : Quat → Quat → Quat → Quat → ℚ → Quat)
    (k1 k2 : KeyFrame) : (sampleSegment squad k1 k2).length = 30 := by
  unfold sampleSegment
  rw [List.length_map, List.length_range]

theorem length_samplePairs (squad : Quat → Quat → Quat → Quat → ℚ → Quat)
    (l : List KeyFrame) : ∀ k, (samplePairs squad (k :: l)).length = 30 * l.length := by
  induction l with
  | nil => intro k; rfl
  | cons k2 rest ih =>
      intro k
      simp only [samplePairs, List.length_append, length_sampleSegment, ih k2,
        List.length_cons]
      ring

theorem drawPathCompute_pair (squad : Quat → Quat → Quat → Quat → ℚ → Quat)
    (k1 k2 : KeyFrame) (rest : List KeyFrame) :
    (drawPathCompute squad (k1 :: k2 :: rest)).length =
        30 * ((k1 :: k2 :: rest).length - 1) + 1 ∧
      (drawPathCompute squad (k1 :: k2 :: rest)).getLastD dPose =
        ⟨((k1 :: k2 :: rest).getLastD dKF).p, ((k1 :: k2 :: rest).getLastD dKF).q⟩ := by
  constructor
  · simp only [drawPathCompute, List.length_append, length_samplePairs,
      List.length_cons, List.length_nil]
    omega
  · simp only [drawPathCompute, List.getLastD_concat]

theorem refreshState_keyFrames_length (sqT : Quat → Quat → Quat → Quat)
    (s : InterpState) :
    (refreshState sqT s).keyFrames.length = s.keyFrames.length := by
  simp [refreshState, length_updateModifiedFrameValues]

theorem drawPath_core (sqT : Quat → Quat → Quat → Quat)
    (squad : Quat → Quat → Quat → Quat → ℚ → Quat) (s : InterpState)
    (hpv : s.pathIsValid = false) (hne : s.keyFrames.isEmpty = false) :
    (drawPath sqT squad s).path =
        drawPathCompute squad (drawPath sqT squad s).keyFrames ∧
      (drawPath sqT squad s).keyFrames.length = s.keyFrames.length := by
  simp only [drawPath, hpv, hne, Bool.false_eq_true, if_false]
  split
  · exact ⟨trivial, rfl⟩
  · exact ⟨trivial, refreshState_keyFrames_length sqT s⟩

/-- Claim C6: on an invalid path cache, `drawPath` samples 30 poses per
segment: with `n ≥ 2` keyframes the rebuilt `path_` has exactly
`30*(n-1) + 1` entries (61 for three keyframes), ending in exactly the last
(refreshed) keyframe's pose; with exactly one keyframe it is that single
keyframe's pose. -/
theorem drawPath_sample_count (sqT : Quat → Quat → Quat → Quat)
    (squad : Quat → Quat → Quat → Quat → ℚ → Quat) (s : InterpState)
    (hpv : s.pathIsValid = false) :
    (2 ≤ s.keyFrames.length →
      (drawPath sqT squad s).path.length = 30 * (s.keyFrames.length - 1) + 1 ∧
      (drawPath sqT squad s).path.getLastD dPose =
        ⟨((drawPath sqT squad s).keyFrames.getLastD dKF).p,
         ((drawPath sqT squad s).keyFrames.getLastD dKF).q⟩) ∧
    (s.keyFrames.length = 1 →
      (drawPath sqT squad s).path =
        [⟨((drawPath sqT squad s).keyFrames.headD dKF).p,
          ((drawPath sqT squad s).keyFrames.headD dKF).q⟩]) := by
  constructor
  · intro h2
    have hne : s.keyFrames.isEmpty = false := by
      cases hk : s.keyFrames with
      | nil => rw [hk] at h2; simp at h2
      | cons a l => rfl
    obtain ⟨hpath, hlen⟩ := drawPath_core sqT squad s hpv hne
    cases hk : (drawPath sqT squad s).keyFrames with
    | nil =>
        rw [hk] at hlen
        simp at hlen
        omega
    | cons k1 t1 =>
        cases t1 with
        | nil =>
            rw [hk] at hlen
            simp at hlen
            omega
        | cons k2 rest =>
            rw [hpath, hk]
            have hp := drawPathCompute_pair squad k1 k2 rest
            have hlen2 : (k1 :: k2 :: rest).length = s.keyFrames.length := by
              rw [← hk]; exact hlen
            exact ⟨by rw [hp.1, hlen2], hp.2⟩
  · intro h1
    have hne : s.keyFrames.isEmpty = false := by
      cases hk : s.keyFrames with
      | nil => rw [hk] at h1; simp at h1
      | cons a l => rfl
    obtain ⟨hpath, hlen⟩ := drawPath_core sqT squad s hpv hne
    cases hk : (drawPath sqT squad s).keyFrames with
    | nil =>
        rw [hk] at hlen
        simp [← hlen] at h1
    | cons k1 t1 =>
        cases t1 with
        | nil =>
            rw [hpath, hk]
            rfl
        | cons k2 rest =>
            rw [hk] at hlen
            rw [← hlen] at h1
            simp at h1

/-- A three-keyframe store with an invalid path cache. -/
def c6State : InterpState :=
  { baseState [cKF0, cKF1, cKF2] with valuesAreValid := false }

/-- Witness for claim C6: 61 poses on a 3-keyframe store, ending in the
last keyframe's pose. -/
theorem drawPath_sample_count_witness :
    (c6State.pathIsValid = false ∧ 2 ≤ c6State.keyFrames.length) ∧
    ((drawPath sqTangentMid squadLin c6State).path.length = 61 ∧
      (drawPath sqTangentMid squadLin c6State).path.getLastD dPose =
        ⟨((drawPath sqTangentMid squadLin c6State).keyFrames.getLastD dKF).p,
         ((drawPath sqTangentMid squadLin c6State).keyFrames.getLastD dKF).q⟩) := by
  refine ⟨⟨rfl, by decide⟩, ?_, ?_⟩
  · have h := ((drawPath_sample_count sqTangentMid squadLin c6State rfl).1 (by decide)).1
    have h61 : 30 * (c6State.keyFrames.length - 1) + 1 = 61 := by decide
    rw [h61] at h
    exact h
  · exact ((drawPath_sample_count sqTangentMid squadLin c6State rfl).1 (by decide)).2


/-! ### Shape lemmas for the evaluation pipeline -/

theorem ensureValues_shape (sqT : Quat → Quat → Quat → Quat) (s : InterpState) :
    ∃ kfs' vv, ensureValues sqT s = { s with keyFrames := kfs', valuesAreValid := vv } ∧
      kfs'.length = s.keyFrames.length ∧ (∀ i, kfTime kfs' i = kfTime s.keyFrames i) := by
  unfold ensureValues
  split
  · exact ⟨s.keyFrames, s.valuesAreValid, rfl, rfl, fun i => rfl⟩
  · exact ⟨updateModifiedFrameValues sqT s.keyFrames, true, rfl,
      length_updateModifiedFrameValues sqT s.keyFrames,
      kfTime_updateModifiedFrameValues sqT s.keyFrames⟩

theorem tracker_shape (t : ℚ) (s : InterpState) :
    ∃ c0 c1 c2 c3 cfv scv,
      updateCurrentKeyFrameForTime t s =
        { s with cur0 := c0, cur1 := c1, cur2 := c2, cur3 := c3,
                 currentFrameValid := cfv, splineCacheIsValid := scv } := by
  simp only [updateCurrentKeyFrameForTime]
  repeat' split
  all_goals exact ⟨_, _, _, _, _, _, rfl⟩

theorem ensureSpline_shape (s : InterpState) :
    ∃ w1 w2 scv,
      ensureSpline s = { s with v1 := w1, v2 := w2, splineCacheIsValid := scv } := by
  unfold ensureSpline
  split
  · exact ⟨s.v1, s.v2, s.splineCacheIsValid, rfl⟩
  · exact ⟨_, _, _, rfl⟩

theorem iat_shape (sqT : Quat → Quat → Quat → Quat)
    (squad : Quat → Quat → Quat → Quat → ℚ → Quat) (t : ℚ) (s : InterpState) :
    ∃ kfs' fr vv cfv scv c0 c1 c2 c3 w1 w2,
      (interpolateAtTime sqT squad t s).1 =
        { s with keyFrames := kfs', frame := fr, interpolationTime := t,
                 valuesAreValid := vv, currentFrameValid := cfv, splineCacheIsValid := scv,
                 cur0 := c0, cur1 := c1, cur2 := c2, cur3 := c3, v1 := w1, v2 := w2 } ∧
      kfs'.length = s.keyFrames.length ∧ (∀ i, kfTime kfs' i = kfTime s.keyFrames i) := by
  unfold interpolateAtTime
  dsimp only
  split
  · exact ⟨s.keyFrames, s.frame, s.valuesAreValid, s.currentFrameValid,
      s.splineCacheIsValid, s.cur0, s.cur1, s.cur2, s.cur3, s.v1, s.v2, rfl, rfl,
      fun i => rfl⟩
  · obtain ⟨kfs', vv, h1, hlen1, ht1⟩ :=
      ensureValues_shape sqT { s with interpolationTime := t }
    rw [h1]
    obtain ⟨c0, c1, c2, c3, cfv, scv, h2⟩ := tracker_shape t
      { s with interpolationTime := t, keyFrames := kfs', valuesAreValid := vv }
    rw [h2]
    obtain ⟨w1, w2, scv2, h3⟩ := ensureSpline_shape
      { s with interpolationTime := t, keyFrames := kfs', valuesAreValid := vv,
               cur0 := c0, cur1 := c1, cur2 := c2, cur3 := c3,
               currentFrameValid := cfv, splineCacheIsValid := scv }
    rw [h3]
    exact ⟨kfs', _, vv, cfv, scv2, c0, c1, c2, c3, w1, w2, rfl, hlen1, ht1⟩

/-! ### Claim C5: playback boundary policy -/

theorem iat_time (sqT : Quat → Quat → Quat → Quat)
    (squad : Quat → Quat → Quat → Quat → ℚ → Quat) (t : ℚ) (s : InterpState) :
    (interpolateAtTime sqT squad t s).1.interpolationTime = t := by
  obtain ⟨kfs', fr, vv, cfv, scv, c0, c1, c2, c3, w1, w2, heq, -, -⟩ :=
    iat_shape sqT squad t s
  rw [heq]

theorem iat_speed (sqT : Quat → Quat → Quat → Quat)
    (squad : Quat → Quat → Quat → Quat → ℚ → Quat) (t : ℚ) (s : InterpState) :
    (interpolateAtTime sqT squad t s).1.interpolationSpeed = s.interpolationSpeed := by
  obtain ⟨kfs', fr, vv, cfv, scv, c0, c1, c2, c3, w1, w2, heq, -, -⟩ :=
    iat_shape sqT squad t s
  rw [heq]

theorem iat_period (sqT : Quat → Quat → Quat → Quat)
    (squad : Quat → Quat → Quat → Quat → ℚ → Quat) (t : ℚ) (s : InterpState) :
    (interpolateAtTime sqT squad t s).1.period = s.period := by
  obtain ⟨kfs', fr, vv, cfv, scv, c0, c1, c2, c3, w1, w2, heq, -, -⟩ :=
    iat_shape sqT squad t s
  rw [heq]

theorem iat_loop (sqT : Quat → Quat → Quat → Quat)
    (squad : Quat → Quat → Quat → Quat → ℚ → Quat) (t : ℚ) (s : InterpState) :
    (interpolateAtTime sqT squad t s).1.loopInterpolation = s.loopInterpolation := by
  obtain ⟨kfs', fr, vv, cfv, scv, c0, c1, c2, c3, w1, w2, heq, -, -⟩ :=
    iat_shape sqT squad t s
  rw [heq]

theorem iat_started (sqT : Quat → Quat → Quat → Quat)
    (squad : Quat → Quat → Quat → Quat → ℚ → Quat) (t : ℚ) (s : InterpState) :
    (interpolateAtTime sqT squad t s).1.interpolationStarted = s.interpolationStarted := by
  obtain ⟨kfs', fr, vv, cfv, scv, c0, c1, c2, c3, w1, w2, heq, -, -⟩ :=
    iat_shape sqT squad t s
  rw [heq]

theorem iat_lastKFTime (sqT : Quat → Quat → Quat → Quat)
    (squad : Quat → Quat → Quat → Quat → ℚ → Quat) (t : ℚ) (s : InterpState) :
    lastKFTime (interpolateAtTime sqT squad t s).1 = lastKFTime s := by
  obtain ⟨kfs', fr, vv, cfv, scv, c0, c1, c2, c3, w1, w2, heq, hlen, ht⟩ :=
    iat_shape sqT squad t s
  rw [heq]
  show kfTime kfs' (kfs'.length - 1) = kfTime s.keyFrames (s.keyFrames.length - 1)
  rw [hlen, ht]

theorem iat_firstKFTime (sqT : Quat → Quat → Quat → Quat)
    (squad : Quat → Quat → Quat → Quat → ℚ → Quat) (t : ℚ) (s : InterpState) :
    firstKFTime (interpolateAtTime sqT squad t s).1 = firstKFTime s := by
  obtain ⟨kfs', fr, vv, cfv, scv, c0, c1, c2, c3, w1, w2, heq, hlen, ht⟩ :=
    iat_shape sqT squad t s
  rw [heq]
  show kfTime kfs' 0 = kfTime s.keyFrames 0
  rw [ht]

theorem iat_events (sqT : Quat → Quat → Quat → Quat)
    (squad : Quat → Quat → Quat → Quat → ℚ → Quat) (t : ℚ) (s : InterpState) :
    (interpolateAtTime sqT squad t s).2 = [] ∨
      (interpolateAtTime sqT squad t s).2 = [Event.interpolated] := by
  unfold interpolateAtTime
  dsimp only
  split
  · exact Or.inl rfl
  · exact Or.inr rfl

theorem iat_count_end (sqT : Quat → Quat → Quat → Quat)
    (squad : Quat → Quat → Quat → Quat → ℚ → Quat) (t : ℚ) (s : InterpState) :
    (interpolateAtTime sqT squad t s).2.count Event.endReached = 0 := by
  rcases iat_events sqT squad t s with h | h <;> rw [h] <;> rfl

theorem lastKFTime_set_time (s : InterpState) (x : ℚ) :
    lastKFTime { s with interpolationTime := x } = lastKFTime s := rfl

theorem firstKFTime_set_time (s : InterpState) (x : ℚ) :
    firstKFTime { s with interpolationTime := x } = firstKFTime s := rfl

theorem lastKFTime_mk (kfs : List KeyFrame) (fr : Option Pose) (pd : ℤ)
    (it isp : ℚ) (ist cp lp pv vv cfv scv : Bool) (c0 c1 c2 c3 : ℕ) (w1 w2 : Vec)
    (pth : List Pose) :
    lastKFTime ⟨kfs, fr, pd, it, isp, ist, cp, lp, pv, vv, cfv, scv, c0, c1, c2, c3, w1, w2, pth⟩ =
      (kfs.getD (kfs.length - 1) dKF).time := rfl

theorem firstKFTime_mk (kfs : List KeyFrame) (fr : Option Pose) (pd : ℤ)
    (it isp : ℚ) (ist cp lp pv vv cfv scv : Bool) (c0 c1 c2 c3 : ℕ) (w1 w2 : Vec)
    (pth : List Pose) :
    firstKFTime ⟨kfs, fr, pd, it, isp, ist, cp, lp, pv, vv, cfv, scv, c0, c1, c2, c3, w1, w2, pth⟩ =
      (kfs.getD 0 dKF).time := rfl

theorem iat_last_getD (sqT : Quat → Quat → Quat → Quat)
    (squad : Quat → Quat → Quat → Quat → ℚ → Quat) (t : ℚ) (s : InterpState) :
    ((interpolateAtTime sqT squad t s).1.keyFrames.getD
        ((interpolateAtTime sqT squad t s).1.keyFrames.length - 1) dKF).time =
      lastKFTime s := iat_lastKFTime sqT squad t s

theorem iat_first_getD (sqT : Quat → Quat → Quat → Quat)
    (squad : Quat → Quat → Quat → Quat → ℚ → Quat) (t : ℚ) (s : InterpState) :
    ((interpolateAtTime sqT squad t s).1.keyFrames.getD 0 dKF).time =
      firstKFTime s := iat_firstKFTime sqT squad t s

/-- Claim C5: one playback tick on a non-empty store.  When the advanced
time exceeds `lastTime()`: with `loop` set, the time wraps to
`firstTime() + (advanced - lastTime())` and the running flag is untouched;
without `loop`, the tick evaluates exactly at `lastTime()` (so
`interpolationTime` ends at `lastTime()`) and playback stops; either way
exactly one `endReached` is emitted.  Symmetrically when the advanced time
falls below `firstTime()`. -/
theorem tick_boundary (sqT : Quat → Quat → Quat → Quat)
    (squad : Quat → Quat → Quat → Quat → ℚ → Quat) (s : InterpState)
    (hne : s.keyFrames ≠ []) (hfl : firstKFTime s ≤ lastKFTime s) :
    (s.interpolationTime + s.interpolationSpeed * (s.period : ℚ) / 1000 > lastKFTime s →
      (s.loopInterpolation = true →
        (update sqT squad s).1.interpolationTime =
          firstKFTime s + (s.interpolationTime + s.interpolationSpeed * (s.period : ℚ) / 1000) -
            lastKFTime s ∧
        (update sqT squad s).1.interpolationStarted = s.interpolationStarted ∧
        (update sqT squad s).2.count Event.endReached = 1) ∧
      (s.loopInterpolation = false →
        (update sqT squad s).1.interpolationStarted = false ∧
        (update sqT squad s).1.interpolationTime = lastKFTime s ∧
        (update sqT squad s).2.count Event.endReached = 1)) ∧
    (s.interpolationTime + s.interpolationSpeed * (s.period : ℚ) / 1000 < firstKFTime s →
      (s.loopInterpolation = true →
        (update sqT squad s).1.interpolationTime =
          lastKFTime s - firstKFTime s +
            (s.interpolationTime + s.interpolationSpeed * (s.period : ℚ) / 1000) ∧
        (update sqT squad s).1.interpolationStarted = s.interpolationStarted ∧
        (update sqT squad s).2.count Event.endReached = 1) ∧
      (s.loopInterpolation = false →
        (update sqT squad s).1.interpolationStarted = false ∧
        (update sqT squad s).1.interpolationTime = firstKFTime s ∧
        (update sqT squad s).2.count Event.endReached = 1)) := by
  constructor
  · intro hover
    constructor
    · intro hloop
      unfold update
      dsimp only
      rw [iat_time, iat_speed, iat_period, iat_loop, iat_started, lastKFTime_mk,
        firstKFTime_mk, iat_last_getD, iat_first_getD, if_pos hover, if_pos hloop]
      refine ⟨rfl, rfl, ?_⟩
      simp [List.count_append, iat_count_end]
    · intro hloop
      unfold update
      dsimp only
      rw [iat_time, iat_speed, iat_period, iat_loop, iat_started, lastKFTime_mk,
        firstKFTime_mk, iat_last_getD, iat_first_getD, if_pos hover, hloop]
      simp only [Bool.false_eq_true, if_false]
      refine ⟨rfl, ?_, ?_⟩
      · show (interpolateAtTime sqT squad _ _).1.interpolationTime = lastKFTime s
        rw [iat_time]
      · simp [List.count_append, iat_count_end]
  · intro hunder
    have hnotover : ¬(s.interpolationTime + s.interpolationSpeed * (s.period : ℚ) / 1000 >
        lastKFTime s) := by
      push_neg
      calc s.interpolationTime + s.interpolationSpeed * (s.period : ℚ) / 1000
          ≤ firstKFTime s := le_of_lt hunder
        _ ≤ lastKFTime s := hfl
    constructor
    · intro hloop
      unfold update
      dsimp only
      rw [iat_time, iat_speed, iat_period, iat_loop, iat_started, lastKFTime_mk,
        firstKFTime_mk, iat_last_getD, iat_first_getD, if_neg hnotover, if_pos hunder,
        if_pos hloop]
      refine ⟨rfl, rfl, ?_⟩
      simp [List.count_append, iat_count_end]
    · intro hloop
      unfold update
      dsimp only
      rw [iat_time, iat_speed, iat_period, iat_loop, iat_started, lastKFTime_mk,
        firstKFTime_mk, iat_last_getD, iat_first_getD, if_neg hnotover, if_pos hunder,
        hloop]
      simp only [Bool.false_eq_true, if_false]
      refine ⟨rfl, ?_, ?_⟩
      · show (interpolateAtTime sqT squad _ _).1.interpolationTime = firstKFTime s
        rw [iat_time]
      · simp [List.count_append, iat_count_end]

/-- A running two-keyframe state whose next tick overruns `lastTime()`. -/
def c5State : InterpState :=
  { baseState [cKF0, cKF2] with interpolationTime := 3, interpolationStarted := true }

/-- Witness for claim C5: the non-loop overrun tick stops playback at
`lastTime()` and emits exactly one `endReached`. -/
theorem tick_boundary_witness :
    (c5State.keyFrames ≠ [] ∧ firstKFTime c5State ≤ lastKFTime c5State ∧
      c5State.interpolationTime + c5State.interpolationSpeed * (c5State.period : ℚ) / 1000 >
        lastKFTime c5State ∧ c5State.loopInterpolation = false) ∧
    ((update sqTangentMid squadLin c5State).1.interpolationStarted = false ∧
      (update sqTangentMid squadLin c5State).1.interpolationTime = lastKFTime c5State ∧
      (update sqTangentMid squadLin c5State).2.count Event.endReached = 1) := by
  have hadv : c5State.interpolationTime + c5State.interpolationSpeed *
      (c5State.period : ℚ) / 1000 > lastKFTime c5State := by
    show (3 : ℚ) + 1 * ((40 : ℤ) : ℚ) / 1000 > (2 : ℚ)
    norm_num
  exact ⟨⟨by decide, by decide, hadv, rfl⟩,
    ((tick_boundary sqTangentMid squadLin c5State (by decide) (by decide)).1 hadv).2 rfl⟩

/-! ### Segment Tracker lemmas (claims C2, C4, C9) -/

theorem sb_untouched (kfs : List KeyFrame) (t : ℚ) (i : ℕ)
    (h : ¬kfTime kfs i > t) : seekBack kfs t i = (i, false) := by
  cases i with
  | zero => simp [seekBack, h]
  | succ j => simp [seekBack, h]

theorem sb_first (kfs : List KeyFrame) (t : ℚ) :
    ∀ i, (∀ j, 0 < j → j ≤ i → t < kfTime kfs j) → (seekBack kfs t i).1 = 0 := by
  intro i
  induction i with
  | zero =>
      intro h
      by_cases hc : kfTime kfs 0 > t
      · simp [seekBack, hc]
      · simp [seekBack, hc]
  | succ j ih =>
      intro h
      have hc : kfTime kfs (j + 1) > t := h (j + 1) (Nat.succ_pos j) le_rfl
      simp only [seekBack, if_pos hc]
      exact ih fun m h1 h2 => h m h1 (Nat.le_succ_of_le h2)

theorem sb_all_above (kfs : List KeyFrame) (t : ℚ) :
    ∀ i, (∀ j, j ≤ i → t < kfTime kfs j) → seekBack kfs t i = (0, true) := by
  intro i
  induction i with
  | zero =>
      intro h
      simp [seekBack, h 0 le_rfl]
  | succ j ih =>
      intro h
      have hc : kfTime kfs (j + 1) > t := h (j + 1) le_rfl
      simp only [seekBack, if_pos hc]
      rw [ih fun m hm => h m (Nat.le_succ_of_le hm)]

theorem seekFwd_eq (kfs : List KeyFrame) (t : ℚ) (i : ℕ) :
    seekFwd kfs t i =
      if kfTime kfs i < t then
        if kfs.length ≤ i + 1 then (i, true)
        else ((seekFwd kfs t (i + 1)).1, true)
      else (i, false) := by
  conv_lhs => unfold seekFwd seekFwdAux
  by_cases hc : kfTime kfs i < t
  · rw [if_pos hc, if_pos hc]
    by_cases hlast : kfs.length ≤ i + 1
    · rw [if_pos hlast, if_pos hlast]
    · rw [if_neg hlast, if_neg hlast]
      have hpos : 0 < kfs.length - i := by omega
      cases hf : kfs.length - i with
      | zero => omega
      | succ f =>
          have hf2 : f = kfs.length - (i + 1) := by omega
          rw [hf2]
          rfl
  · rw [if_neg hc, if_neg hc]

theorem sf_untouched (kfs : List KeyFrame) (t : ℚ) (i : ℕ)
    (h : ¬kfTime kfs i < t) : seekFwd kfs t i = (i, false) := by
  rw [seekFwd_eq]
  rw [if_neg h]

theorem sf_touched (kfs : List KeyFrame) (t : ℚ) (i : ℕ)
    (h : kfTime kfs i < t) : (seekFwd kfs t i).2 = true := by
  rw [seekFwd_eq]
  rw [if_pos h]
  split <;> rfl

theorem sf_reach_last (kfs : List KeyFrame) (t : ℚ) (i : ℕ)
    (hi : i < kfs.length)
    (hall : ∀ j, j < kfs.length - 1 → kfTime kfs j < t) :
    (seekFwd kfs t i).1 = kfs.length - 1 := by
  suffices H : ∀ k i, i < kfs.length → kfs.length - 1 - i ≤ k →
      (seekFwd kfs t i).1 = kfs.length - 1 from
    H kfs.length i hi (by omega)
  intro k
  induction k with
  | zero =>
      intro i hi2 hk
      have hi1 : i = kfs.length - 1 := by omega
      rw [seekFwd_eq]
      split
      · rw [if_pos (show kfs.length ≤ i + 1 by omega)]
        simpa using hi1
      · simpa using hi1
  | succ k ih =>
      intro i hi2 hk
      by_cases hc : kfTime kfs i < t
      · rw [seekFwd_eq]
        rw [if_pos hc]
        by_cases hlast : kfs.length ≤ i + 1
        · rw [if_pos hlast]
          show i = kfs.length - 1
          omega
        · rw [if_neg hlast]
          show (seekFwd kfs t (i + 1)).1 = kfs.length - 1
          exact ih (i + 1) (by omega) (by omega)
      · have hge : ¬(i < kfs.length - 1) := fun hlt => hc (hall i hlt)
        have hi1 : i = kfs.length - 1 := by omega
        rw [seekFwd_eq]
        rw [if_neg hc]
        simpa using hi1

theorem tracker_over (t : ℚ) (s : InterpState) (hne : s.keyFrames ≠ [])
    (hb : s.currentFrameValid = true →
      s.cur1 < s.keyFrames.length ∧ s.cur2 < s.keyFrames.length)
    (hsort : ∀ j, j < s.keyFrames.length →
      kfTime s.keyFrames j ≤ kfTime s.keyFrames (s.keyFrames.length - 1))
    (ht : kfTime s.keyFrames (s.keyFrames.length - 1) < t) :
    ∃ c0 c3, updateCurrentKeyFrameForTime t s =
      { s with cur0 := c0, cur1 := s.keyFrames.length - 1,
               cur2 := s.keyFrames.length - 1, cur3 := c3,
               currentFrameValid := true, splineCacheIsValid := false } := by
  have hn : 0 < s.keyFrames.length := List.length_pos.mpr hne
  have hlt : ∀ i, i < s.keyFrames.length → kfTime s.keyFrames i < t :=
    fun i hi => lt_of_le_of_lt (hsort i hi) ht
  have hnb : ∀ i, i < s.keyFrames.length → ¬kfTime s.keyFrames i > t :=
    fun i hi => not_lt.mpr (le_of_lt (hlt i hi))
  have hasym : ¬(s.keyFrames.length - 1 ≠ 0 ∧
      t < kfTime s.keyFrames (s.keyFrames.length - 1)) :=
    fun h => absurd h.2 (lt_asymm ht)
  simp only [updateCurrentKeyFrameForTime]
  cases hcf : s.currentFrameValid with
  | false =>
      simp only [Bool.false_eq_true, if_false, Bool.false_and]
      rw [sb_untouched s.keyFrames t 0 (hnb 0 hn)]
      dsimp only
      rw [sf_reach_last s.keyFrames t 0 hn (fun j hj => hlt j (by omega))]
      rw [if_neg hasym]
      exact ⟨_, _, rfl⟩
  | true =>
      obtain ⟨hb1, hb2⟩ := hb hcf
      simp only [eq_self_iff_true, if_true]
      rw [sb_untouched s.keyFrames t s.cur1 (hnb _ hb1)]
      simp only [Bool.not_false, Bool.and_true, eq_self_iff_true, if_true]
      rw [sf_touched s.keyFrames t s.cur2 (hlt _ hb2)]
      simp only [Bool.not_true, Bool.and_false, Bool.false_eq_true, if_false]
      rw [sf_reach_last s.keyFrames t s.cur2 hb2 (fun j hj => hlt j (by omega))]
      rw [if_neg hasym]
      exact ⟨_, _, rfl⟩

theorem sb_touched (kfs : List KeyFrame) (t : ℚ) (i : ℕ)
    (h : kfTime kfs i > t) : (seekBack kfs t i).2 = true := by
  cases i with
  | zero => simp [seekBack, h]
  | succ j => simp [seekBack, h]

theorem tracker_under (t : ℚ) (s : InterpState) (hne : s.keyFrames ≠ [])
    (hb : s.currentFrameValid = true →
      s.cur1 < s.keyFrames.length ∧ s.cur2 < s.keyFrames.length)
    (hsort0 : ∀ j, j < s.keyFrames.length →
      kfTime s.keyFrames 0 ≤ kfTime s.keyFrames j)
    (ht : t < kfTime s.keyFrames 0) :
    ∃ c3, updateCurrentKeyFrameForTime t s =
      { s with cur0 := 0, cur1 := 0, cur2 := 0, cur3 := c3,
               currentFrameValid := true, splineCacheIsValid := false } := by
  have hn : 0 < s.keyFrames.length := List.length_pos.mpr hne
  have habove : ∀ i, i < s.keyFrames.length → t < kfTime s.keyFrames i :=
    fun i hi => lt_of_lt_of_le ht (hsort0 i hi)
  have hnf : ¬kfTime s.keyFrames 0 < t := lt_asymm ht
  have hc1 : ¬((0 : ℕ) ≠ 0 ∧ t < kfTime s.keyFrames 0) := fun h => h.1 rfl
  simp only [updateCurrentKeyFrameForTime]
  cases hcf : s.currentFrameValid with
  | false =>
      simp only [Bool.false_eq_true, if_false, Bool.false_and]
      rw [sb_all_above s.keyFrames t 0 (fun j hj => habove j (by omega))]
      dsimp only
      rw [sf_untouched s.keyFrames t 0 hnf]
      rw [if_neg hc1]
      exact ⟨_, rfl⟩
  | true =>
      obtain ⟨hb1, hb2⟩ := hb hcf
      simp only [eq_self_iff_true, if_true]
      rw [sb_all_above s.keyFrames t s.cur1 (fun j hj => habove j (by omega))]
      simp only [Bool.not_true, Bool.and_false, Bool.false_eq_true, if_false]
      rw [sf_untouched s.keyFrames t 0 hnf]
      rw [if_neg hc1]
      exact ⟨_, rfl⟩

theorem tracker_at_first (s : InterpState) (hne : s.keyFrames ≠ [])
    (hb : s.currentFrameValid = true →
      s.cur1 < s.keyFrames.length ∧ s.cur2 < s.keyFrames.length)
    (hstrict : ∀ j k, j < k → k < s.keyFrames.length →
      kfTime s.keyFrames j < kfTime s.keyFrames k) :
    (updateCurrentKeyFrameForTime (kfTime s.keyFrames 0) s).cur1 = 0 := by
  have hn : 0 < s.keyFrames.length := List.length_pos.mpr hne
  have hnb0 : ¬kfTime s.keyFrames 0 > kfTime s.keyFrames 0 := lt_irrefl _
  have hnf0 : ¬kfTime s.keyFrames 0 < kfTime s.keyFrames 0 := lt_irrefl _
  have hc1 : ¬((0 : ℕ) ≠ 0 ∧ kfTime s.keyFrames 0 < kfTime s.keyFrames 0) :=
    fun h => h.1 rfl
  simp only [updateCurrentKeyFrameForTime]
  cases hcf : s.currentFrameValid with
  | false =>
      simp only [Bool.false_eq_true, if_false, Bool.false_and]
      rw [sb_untouched s.keyFrames _ 0 hnb0]
      dsimp only
      rw [sf_untouched s.keyFrames _ 0 hnf0]
      rw [if_neg hc1]
  | true =>
      obtain ⟨hb1, hb2⟩ := hb hcf
      simp only [eq_self_iff_true, if_true]
      by_cases h1 : s.cur1 = 0
      · rw [h1, sb_untouched s.keyFrames _ 0 hnb0]
        simp only [Bool.not_false, Bool.and_true, eq_self_iff_true, if_true]
        have hs2 : ¬kfTime s.keyFrames s.cur2 < kfTime s.keyFrames 0 := by
          rcases Nat.eq_zero_or_pos s.cur2 with h | h
          · rw [h]; exact lt_irrefl _
          · exact not_lt.mpr (le_of_lt (hstrict 0 s.cur2 h hb2))
        rw [sf_untouched s.keyFrames _ s.cur2 hs2]
        simp only [Bool.not_false, Bool.and_true, eq_self_iff_true, if_true]
        exact h1
      · have hgt : kfTime s.keyFrames s.cur1 > kfTime s.keyFrames 0 :=
          hstrict 0 s.cur1 (Nat.pos_of_ne_zero h1) hb1
        have hr1 : seekBack s.keyFrames (kfTime s.keyFrames 0) s.cur1 = (0, true) :=
          Prod.ext_iff.mpr
            ⟨sb_first s.keyFrames _ s.cur1
              (fun j hj1 hj2 => hstrict 0 j hj1 (lt_of_le_of_lt hj2 hb1)),
             sb_touched s.keyFrames _ s.cur1 hgt⟩
        rw [hr1]
        simp only [Bool.not_true, Bool.and_false, Bool.false_eq_true, if_false]
        rw [sf_untouched s.keyFrames _ 0 hnf0]
        dsimp only
        simp

theorem tracker_at_last (s : InterpState) (hne : s.keyFrames ≠ [])
    (hb : s.currentFrameValid = true →
      s.cur1 < s.keyFrames.length ∧ s.cur2 < s.keyFrames.length)
    (hstrict : ∀ j k, j < k → k < s.keyFrames.length →
      kfTime s.keyFrames j < kfTime s.keyFrames k) :
    (updateCurrentKeyFrameForTime (kfTime s.keyFrames (s.keyFrames.length - 1)) s = s ∧
      s.currentFrameValid = true ∧ s.cur2 = s.keyFrames.length - 1) ∨
    (∃ c0 c3,
      updateCurrentKeyFrameForTime (kfTime s.keyFrames (s.keyFrames.length - 1)) s =
        { s with cur0 := c0, cur1 := s.keyFrames.length - 1,
                 cur2 := s.keyFrames.length - 1, cur3 := c3,
                 currentFrameValid := true, splineCacheIsValid := false }) := by
  have hn : 0 < s.keyFrames.length := List.length_pos.mpr hne
  have hle : ∀ j, j < s.keyFrames.length →
      kfTime s.keyFrames j ≤ kfTime s.keyFrames (s.keyFrames.length - 1) := by
    intro j hj
    rcases Nat.lt_or_ge j (s.keyFrames.length - 1) with h | h
    · exact le_of_lt (hstrict j _ h (by omega))
    · have : j = s.keyFrames.length - 1 := by omega
      rw [this]
  have hall : ∀ j, j < s.keyFrames.length - 1 →
      kfTime s.keyFrames j < kfTime s.keyFrames (s.keyFrames.length - 1) :=
    fun j hj => hstrict j _ hj (by omega)
  have hasym : ¬(s.keyFrames.length - 1 ≠ 0 ∧
      kfTime s.keyFrames (s.keyFrames.length - 1) <
        kfTime s.keyFrames (s.keyFrames.length - 1)) :=
    fun h => lt_irrefl _ h.2
  simp only [updateCurrentKeyFrameForTime]
  cases hcf : s.currentFrameValid with
  | false =>
      refine Or.inr ?_
      simp only [Bool.false_eq_true, if_false, Bool.false_and]
      rw [sb_untouched s.keyFrames _ 0 (not_lt.mpr (hle 0 hn))]
      dsimp only
      rw [sf_reach_last s.keyFrames _ 0 hn hall]
      rw [if_neg hasym]
      exact ⟨_, _, rfl⟩
  | true =>
      obtain ⟨hb1, hb2⟩ := hb hcf
      simp only [eq_self_iff_true, if_true]
      rw [sb_untouched s.keyFrames _ s.cur1 (not_lt.mpr (hle _ hb1))]
      simp only [Bool.not_false, Bool.and_true, eq_self_iff_true, if_true]
      by_cases h2 : kfTime s.keyFrames s.cur2 < kfTime s.keyFrames (s.keyFrames.length - 1)
      · refine Or.inr ?_
        rw [sf_touched s.keyFrames _ s.cur2 h2]
        simp only [Bool.not_true, Bool.and_false, Bool.false_eq_true, if_false]
        rw [sf_reach_last s.keyFrames _ s.cur2 hb2 hall]
        rw [if_neg hasym]
        exact ⟨_, _, rfl⟩
      · refine Or.inl ⟨?_, trivial, ?_⟩
        · rw [sf_untouched s.keyFrames _ s.cur2 h2]
          simp only [Bool.not_false, Bool.and_true, eq_self_iff_true, if_true]
        · by_contra hne2
          have : s.cur2 < s.keyFrames.length - 1 := by omega
          exact h2 (hall s.cur2 this)

/-! ### Claim C9: out-of-range queries clamp to the endpoints -/

theorem ensureSpline_of_false {s : InterpState} (h : s.splineCacheIsValid = false) :
    ensureSpline s = updateSplineCache s := by
  unfold ensureSpline
  rw [h]
  simp

theorem ensureValues_of_valid (sqT : Quat → Quat → Quat → Quat) {s : InterpState}
    (h : s.valuesAreValid = true) : ensureValues sqT s = s := by
  unfold ensureValues
  rw [h]
  simp

theorem ensureValues_of_invalid (sqT : Quat → Quat → Quat → Quat) {s : InterpState}
    (h : s.valuesAreValid = false) : ensureValues sqT s = refreshState sqT s := by
  unfold ensureValues
  rw [h]
  simp

theorem iat_keyFrames_of_valid (sqT : Quat → Quat → Quat → Quat)
    (squad : Quat → Quat → Quat → Quat → ℚ → Quat) (t : ℚ) (s : InterpState)
    (hvv : s.valuesAreValid = true) :
    (interpolateAtTime sqT squad t s).1.keyFrames = s.keyFrames := by
  unfold interpolateAtTime
  dsimp only
  split
  · rfl
  · rw [ensureValues_of_valid sqT
      (show ({ s with interpolationTime := t } : InterpState).valuesAreValid = true from hvv)]
    obtain ⟨c0, c1, c2, c3, cfv, scv, htr⟩ := tracker_shape t { s with interpolationTime := t }
    rw [htr]
    obtain ⟨w1, w2, scv2, hsp⟩ := ensureSpline_shape
      { s with interpolationTime := t, cur0 := c0, cur1 := c1, cur2 := c2, cur3 := c3,
               currentFrameValid := cfv, splineCacheIsValid := scv }
    rw [hsp]

theorem iat_refresh_eq (sqT : Quat → Quat → Quat → Quat)
    (squad : Quat → Quat → Quat → Quat → ℚ → Quat) (t : ℚ) (s : InterpState)
    (hE : s.keyFrames.isEmpty = false) (hN : s.frame.isNone = false)
    (hvv : s.valuesAreValid = false) :
    interpolateAtTime sqT squad t s =
      interpolateAtTime sqT squad t (refreshState sqT s) := by
  have hguard : ¬(s.keyFrames.isEmpty = true ∨ s.frame.isNone = true) := by
    rw [hE, hN]; simp
  have hE2 : (updateModifiedFrameValues sqT s.keyFrames).isEmpty = false := by
    have := length_updateModifiedFrameValues sqT s.keyFrames
    cases h : updateModifiedFrameValues sqT s.keyFrames with
    | nil =>
        rw [h] at this
        cases hk : s.keyFrames with
        | nil => rw [hk] at hE; simp at hE
        | cons a l => rw [hk] at this; simp at this
    | cons a l => rfl
  have hguard2 : ¬((updateModifiedFrameValues sqT s.keyFrames).isEmpty = true ∨
      s.frame.isNone = true) := by
    rw [hE2, hN]; simp
  unfold interpolateAtTime
  dsimp only [refreshState]
  rw [if_neg hguard, if_neg hguard2]
  rw [ensureValues_of_invalid sqT
    (show ({ s with interpolationTime := t } : InterpState).valuesAreValid = false from hvv)]
  have hv2 : ({ s with keyFrames := updateModifiedFrameValues sqT s.keyFrames, valuesAreValid := true, interpolationTime := t } : InterpState).valuesAreValid = true := rfl
  rw [ensureValues_of_valid sqT hv2]
  rfl

theorem c9_core_over (sqT : Quat → Quat → Quat → Quat)
    (squad : Quat → Quat → Quat → Quat → ℚ → Quat) (t : ℚ) (σ : InterpState)
    (hvv : σ.valuesAreValid = true) (hne : σ.keyFrames ≠ [])
    (hN : σ.frame.isNone = false)
    (hb : σ.currentFrameValid = true →
      σ.cur1 < σ.keyFrames.length ∧ σ.cur2 < σ.keyFrames.length)
    (hsort : ∀ j, j < σ.keyFrames.length →
      kfTime σ.keyFrames j ≤ kfTime σ.keyFrames (σ.keyFrames.length - 1))
    (hsq0 : ∀ a b c d, squad a b c d 0 = a)
    (ht : kfTime σ.keyFrames (σ.keyFrames.length - 1) < t) :
    (interpolateAtTime sqT squad t σ).1.frame =
      some ⟨(σ.keyFrames.getD (σ.keyFrames.length - 1) dKF).p,
        (σ.keyFrames.getD (σ.keyFrames.length - 1) dKF).q⟩ := by
  have hE : σ.keyFrames.isEmpty = false := by
    cases h : σ.keyFrames with
    | nil => exact absurd h hne
    | cons a l => rfl
  have hguard : ¬(σ.keyFrames.isEmpty = true ∨ σ.frame.isNone = true) := by
    rw [hE, hN]; simp
  unfold interpolateAtTime
  dsimp only
  rw [if_neg hguard]
  rw [ensureValues_of_valid sqT
    (show ({ σ with interpolationTime := t } : InterpState).valuesAreValid = true from hvv)]
  obtain ⟨c0, c3, htr⟩ := tracker_over t { σ with interpolationTime := t } hne hb hsort ht
  rw [htr]
  unfold ensureSpline
  dsimp only
  simp only [Bool.false_eq_true, if_false]
  unfold updateSplineCache
  dsimp only
  simp [hsq0]

theorem c9_core_under (sqT : Quat → Quat → Quat → Quat)
    (squad : Quat → Quat → Quat → Quat → ℚ → Quat) (t : ℚ) (σ : InterpState)
    (hvv : σ.valuesAreValid = true) (hne : σ.keyFrames ≠ [])
    (hN : σ.frame.isNone = false)
    (hb : σ.currentFrameValid = true →
      σ.cur1 < σ.keyFrames.length ∧ σ.cur2 < σ.keyFrames.length)
    (hsort0 : ∀ j, j < σ.keyFrames.length →
      kfTime σ.keyFrames 0 ≤ kfTime σ.keyFrames j)
    (hsq0 : ∀ a b c d, squad a b c d 0 = a)
    (ht : t < kfTime σ.keyFrames 0) :
    (interpolateAtTime sqT squad t σ).1.frame =
      some ⟨(σ.keyFrames.getD 0 dKF).p, (σ.keyFrames.getD 0 dKF).q⟩ := by
  have hE : σ.keyFrames.isEmpty = false := by
    cases h : σ.keyFrames with
    | nil => exact absurd h hne
    | cons a l => rfl
  have hguard : ¬(σ.keyFrames.isEmpty = true ∨ σ.frame.isNone = true) := by
    rw [hE, hN]; simp
  unfold interpolateAtTime
  dsimp only
  rw [if_neg hguard]
  rw [ensureValues_of_valid sqT
    (show ({ σ with interpolationTime := t } : InterpState).valuesAreValid = true from hvv)]
  obtain ⟨c3, htr⟩ := tracker_under t { σ with interpolationTime := t } hne hb hsort0 ht
  rw [htr]
  unfold ensureSpline
  dsimp only
  simp only [Bool.false_eq_true, if_false]
  unfold updateSplineCache
  dsimp only
  simp [hsq0]

theorem umfv_ne_nil (sqT : Quat → Quat → Quat → Quat) {kfs : List KeyFrame}
    (h : kfs ≠ []) : updateModifiedFrameValues sqT kfs ≠ [] := by
  intro h0
  apply h
  have hl := length_updateModifiedFrameValues sqT kfs
  rw [h0] at hl
  exact List.length_eq_zero.mp hl.symm

theorem refreshState_kfTime (sqT : Quat → Quat → Quat → Quat) (s : InterpState) (i : ℕ) :
    kfTime (refreshState sqT s).keyFrames i = kfTime s.keyFrames i :=
  kfTime_updateModifiedFrameValues sqT s.keyFrames i

/-- Claim C9: query times strictly outside the path's time range clamp to
the endpoints — on a non-empty store with a sink, evaluating at `t` above
the last keyframe's time applies exactly the last (refreshed) keyframe's
pose, and below the first keyframe's time exactly the first keyframe's
pose (both bracketing cursors collapse onto the endpoint, so `alpha = 0`). -/
theorem evaluate_out_of_range_clamps (sqT : Quat → Quat → Quat → Quat)
    (squad : Quat → Quat → Quat → Quat → ℚ → Quat) (t : ℚ) (s : InterpState)
    (hne : s.keyFrames ≠ []) (hsink : s.frame.isNone = false)
    (hb : s.currentFrameValid = true →
      s.cur1 < s.keyFrames.length ∧ s.cur2 < s.keyFrames.length)
    (hsort : ∀ k, k < s.keyFrames.length → ∀ j, j < k →
      kfTime s.keyFrames j ≤ kfTime s.keyFrames k)
    (hsq0 : ∀ a b c d, squad a b c d 0 = a) :
    (lastKFTime s < t →
      (interpolateAtTime sqT squad t s).1.frame =
        some ⟨((interpolateAtTime sqT squad t s).1.keyFrames.getD
            ((interpolateAtTime sqT squad t s).1.keyFrames.length - 1) dKF).p,
          ((interpolateAtTime sqT squad t s).1.keyFrames.getD
            ((interpolateAtTime sqT squad t s).1.keyFrames.length - 1) dKF).q⟩) ∧
    (t < firstKFTime s →
      (interpolateAtTime sqT squad t s).1.frame =
        some ⟨((interpolateAtTime sqT squad t s).1.keyFrames.getD 0 dKF).p,
          ((interpolateAtTime sqT squad t s).1.keyFrames.getD 0 dKF).q⟩) := by
  have hn : 0 < s.keyFrames.length := List.length_pos.mpr hne
  have hsortLast : ∀ j, j < s.keyFrames.length →
      kfTime s.keyFrames j ≤ kfTime s.keyFrames (s.keyFrames.length - 1) := by
    intro j hj
    rcases Nat.lt_or_ge j (s.keyFrames.length - 1) with h | h
    · exact hsort _ (by omega) j h
    · have : j = s.keyFrames.length - 1 := by omega
      rw [this]
  have hsort0 : ∀ j, j < s.keyFrames.length →
      kfTime s.keyFrames 0 ≤ kfTime s.keyFrames j := by
    intro j hj
    rcases Nat.eq_zero_or_pos j with h | h
    · rw [h]
    · exact hsort j hj 0 h
  cases hvv : s.valuesAreValid with
  | true =>
      constructor
      · intro ht
        rw [iat_keyFrames_of_valid sqT squad t s hvv]
        exact c9_core_over sqT squad t s hvv hne hsink hb hsortLast hsq0 ht
      · intro ht
        rw [iat_keyFrames_of_valid sqT squad t s hvv]
        exact c9_core_under sqT squad t s hvv hne hsink hb hsort0 hsq0 ht
  | false =>
      have hE : s.keyFrames.isEmpty = false := by
        cases h : s.keyFrames with
        | nil => exact absurd h hne
        | cons a l => rfl
      have heq := iat_refresh_eq sqT squad t s hE hsink hvv
      have hneR : (refreshState sqT s).keyFrames ≠ [] := umfv_ne_nil sqT hne
      have hvvR : (refreshState sqT s).valuesAreValid = true := rfl
      have hNR : (refreshState sqT s).frame.isNone = false := hsink
      have hlenR : (refreshState sqT s).keyFrames.length = s.keyFrames.length :=
        refreshState_keyFrames_length sqT s
      have hbR : (refreshState sqT s).currentFrameValid = true →
          (refreshState sqT s).cur1 < (refreshState sqT s).keyFrames.length ∧
          (refreshState sqT s).cur2 < (refreshState sqT s).keyFrames.length := by
        intro hval
        rw [hlenR]
        exact hb hval
      constructor
      · intro ht
        rw [heq]
        rw [iat_keyFrames_of_valid sqT squad t (refreshState sqT s) hvvR]
        refine c9_core_over sqT squad t (refreshState sqT s) hvvR hneR hNR hbR ?_ hsq0 ?_
        · intro j hj
          rw [refreshState_kfTime, refreshState_kfTime, hlenR]
          rw [hlenR] at hj
          exact hsortLast j hj
        · rw [refreshState_kfTime, hlenR]
          exact ht
      · intro ht
        rw [heq]
        rw [iat_keyFrames_of_valid sqT squad t (refreshState sqT s) hvvR]
        refine c9_core_under sqT squad t (refreshState sqT s) hvvR hneR hNR hbR ?_ hsq0 ?_
        · intro j hj
          rw [refreshState_kfTime, refreshState_kfTime]
          rw [hlenR] at hj
          exact hsort0 j hj
        · rw [refreshState_kfTime]
          exact ht

/-- A three-keyframe store (times 0, 1, 2) with refreshed values and a sink. -/
def c9State : InterpState := baseState [cKF0, cKF1, cKF2]

/-- Witness for claim C9 at `t = 5` (above `lastTime`) and `t = -3`
(below `firstTime`). -/
theorem evaluate_out_of_range_clamps_witness :
    (lastKFTime c9State < 5 ∧
      (interpolateAtTime sqTangentMid squadLin 5 c9State).1.frame =
        some ⟨((interpolateAtTime sqTangentMid squadLin 5 c9State).1.keyFrames.getD
            ((interpolateAtTime sqTangentMid squadLin 5 c9State).1.keyFrames.length - 1) dKF).p,
          ((interpolateAtTime sqTangentMid squadLin 5 c9State).1.keyFrames.getD
            ((interpolateAtTime sqTangentMid squadLin 5 c9State).1.keyFrames.length - 1) dKF).q⟩) ∧
    ((-3 : ℚ) < firstKFTime c9State ∧
      (interpolateAtTime sqTangentMid squadLin (-3) c9State).1.frame =
        some ⟨((interpolateAtTime sqTangentMid squadLin (-3) c9State).1.keyFrames.getD 0 dKF).p,
          ((interpolateAtTime sqTangentMid squadLin (-3) c9State).1.keyFrames.getD 0 dKF).q⟩) :=
  ⟨⟨by decide,
    (evaluate_out_of_range_clamps sqTangentMid squadLin 5 c9State (by decide) rfl
      (by decide) (by decide)
      (fun a b c d => by ext <;> simp [squadLin])).1 (by decide)⟩,
   ⟨by decide,
    (evaluate_out_of_range_clamps sqTangentMid squadLin (-3) c9State (by decide) rfl
      (by decide) (by decide)
      (fun a b c d => by ext <;> simp [squadLin])).2 (by decide)⟩⟩

/-! ### Claims C4 and C2: the cubic position formula and exact endpoints -/

/-- The Spline Cache coherence invariant: whenever `splineCacheIsValid_` is
set, `v1`/`v2` are the cubic coefficients of the current cursor window.
Established by `updateSplineCache` and maintained by the evaluator (any
window rebuild clears the flag). -/
def splineCoherent (s : InterpState) : Prop :=
  s.splineCacheIsValid = true →
    s.v1 = splineV1 (s.keyFrames.getD s.cur1 dKF) (s.keyFrames.getD s.cur2 dKF) ∧
    s.v2 = splineV2 (s.keyFrames.getD s.cur1 dKF) (s.keyFrames.getD s.cur2 dKF)

theorem ensureSpline_of_true {s : InterpState} (h : s.splineCacheIsValid = true) :
    ensureSpline s = s := by
  unfold ensureSpline
  rw [h]
  simp

theorem tracker_cases (t : ℚ) (s : InterpState) :
    updateCurrentKeyFrameForTime t s = s ∨
      (updateCurrentKeyFrameForTime t s).splineCacheIsValid = false := by
  simp only [updateCurrentKeyFrameForTime]
  repeat' split
  all_goals first
    | exact Or.inl rfl
    | exact Or.inr rfl

theorem tracker_keyFrames (t : ℚ) (s : InterpState) :
    (updateCurrentKeyFrameForTime t s).keyFrames = s.keyFrames := by
  obtain ⟨c0, c1, c2, c3, cfv, scv, htr⟩ := tracker_shape t s
  rw [htr]

theorem tracker_frame (t : ℚ) (s : InterpState) :
    (updateCurrentKeyFrameForTime t s).frame = s.frame := by
  obtain ⟨c0, c1, c2, c3, cfv, scv, htr⟩ := tracker_shape t s
  rw [htr]

theorem tracker_v1 (t : ℚ) (s : InterpState) :
    (updateCurrentKeyFrameForTime t s).v1 = s.v1 := by
  obtain ⟨c0, c1, c2, c3, cfv, scv, htr⟩ := tracker_shape t s
  rw [htr]

theorem tracker_v2 (t : ℚ) (s : InterpState) :
    (updateCurrentKeyFrameForTime t s).v2 = s.v2 := by
  obtain ⟨c0, c1, c2, c3, cfv, scv, htr⟩ := tracker_shape t s
  rw [htr]

theorem cubic_at_one (k1 k2 : KeyFrame) :
    k1.p + (1 : ℚ) • (k1.tgP + (1 : ℚ) • (splineV1 k1 k2 + (1 : ℚ) • splineV2 k1 k2)) =
      k2.p := by
  ext <;> simp [splineV1, splineV2] <;> ring

/-- Claim C4: the evaluated position is exactly the claimed cubic polynomial
`k1.position + alpha*(k1.tangentPosition + alpha*(v1 + alpha*v2))` over the
bracketing window `(cursor1, cursor2)` produced by the Segment Tracker, with
`v1`, `v2`, `alpha` as the claim defines them (`specPosition`), assuming the
Spline Cache coherence invariant. -/
theorem evaluate_position_cubic_spec (sqT : Quat → Quat → Quat → Quat)
    (squad : Quat → Quat → Quat → Quat → ℚ → Quat) (t : ℚ) (s : InterpState)
    (hne : s.keyFrames ≠ []) (hsink : s.frame.isNone = false)
    (hvv : s.valuesAreValid = true) (hco : splineCoherent s) :
    ((interpolateAtTime sqT squad t s).1.frame.map Pose.p) =
      some (specPosition
        ((updateCurrentKeyFrameForTime t { s with interpolationTime := t }).keyFrames.getD
          (updateCurrentKeyFrameForTime t { s with interpolationTime := t }).cur1 dKF)
        ((updateCurrentKeyFrameForTime t { s with interpolationTime := t }).keyFrames.getD
          (updateCurrentKeyFrameForTime t { s with interpolationTime := t }).cur2 dKF) t) := by
  have hE : s.keyFrames.isEmpty = false := by
    cases h : s.keyFrames with
    | nil => exact absurd h hne
    | cons a l => rfl
  have hguard : ¬(s.keyFrames.isEmpty = true ∨ s.frame.isNone = true) := by
    rw [hE, hsink]; simp
  unfold interpolateAtTime
  dsimp only
  rw [if_neg hguard]
  rw [ensureValues_of_valid sqT
    (show ({ s with interpolationTime := t } : InterpState).valuesAreValid = true from hvv)]
  rcases tracker_cases t { s with interpolationTime := t } with hcase | hcase
  · rw [hcase]
    by_cases hsc : s.splineCacheIsValid = true
    · rw [ensureSpline_of_true
        (show ({ s with interpolationTime := t } : InterpState).splineCacheIsValid = true from hsc)]
      obtain ⟨hv1, hv2⟩ := hco hsc
      dsimp only
      rw [hv1, hv2]
      simp only [specPosition, splineV1, splineV2]
      rfl
    · have hsc2 : s.splineCacheIsValid = false := by
        cases h2 : s.splineCacheIsValid with
        | false => rfl
        | true => exact absurd h2 hsc
      rw [ensureSpline_of_false
        (show ({ s with interpolationTime := t } : InterpState).splineCacheIsValid = false from hsc2)]
      unfold updateSplineCache
      dsimp only
      simp only [specPosition, splineV1, splineV2]
      rfl
  · rw [ensureSpline_of_false hcase]
    unfold updateSplineCache
    dsimp only
    simp only [specPosition, splineV1, splineV2]
    rfl

/-- Witness for claim C4 on the three-keyframe store at `t = 1`. -/
theorem evaluate_position_cubic_spec_witness :
    (c9State.keyFrames ≠ [] ∧ c9State.frame.isNone = false ∧
      c9State.valuesAreValid = true ∧ splineCoherent c9State) ∧
    ((interpolateAtTime sqTangentMid squadLin 1 c9State).1.frame.map Pose.p) =
      some (specPosition
        ((updateCurrentKeyFrameForTime 1 { c9State with interpolationTime := 1 }).keyFrames.getD
          (updateCurrentKeyFrameForTime 1 { c9State with interpolationTime := 1 }).cur1 dKF)
        ((updateCurrentKeyFrameForTime 1 { c9State with interpolationTime := 1 }).keyFrames.getD
          (updateCurrentKeyFrameForTime 1 { c9State with interpolationTime := 1 }).cur2 dKF) 1) :=
  ⟨⟨by decide, rfl, rfl, fun h => absurd h (by decide)⟩,
   evaluate_position_cubic_spec sqTangentMid squadLin 1 c9State (by decide) rfl rfl
     (fun h => absurd h (by decide))⟩

/-! ### Claim C2: exact endpoint evaluation -/

/-- The normalized parameter `alpha` computed by `interpolateAtTime` from a
post-spline state: 0 when the bracketing segment has zero duration, else
`(t - k1.time) / (k2.time - k1.time)`. -/
def alphaOf (t : ℚ) (σ : InterpState) : ℚ :=
  if (σ.keyFrames.getD σ.cur2 dKF).time - (σ.keyFrames.getD σ.cur1 dKF).time = 0 then 0
  else (t - (σ.keyFrames.getD σ.cur1 dKF).time) /
    ((σ.keyFrames.getD σ.cur2 dKF).time - (σ.keyFrames.getD σ.cur1 dKF).time)

/-- The pose `interpolateAtTime` applies to the sink, as a function of the
post-spline state: the cubic position and the squad orientation at `alphaOf`. -/
def appliedPose (squad : Quat → Quat → Quat → Quat → ℚ → Quat) (t : ℚ)
    (σ : InterpState) : Pose :=
  ⟨(σ.keyFrames.getD σ.cur1 dKF).p + alphaOf t σ • ((σ.keyFrames.getD σ.cur1 dKF).tgP +
      alphaOf t σ • (σ.v1 + alphaOf t σ • σ.v2)),
   squad (σ.keyFrames.getD σ.cur1 dKF).q (σ.keyFrames.getD σ.cur1 dKF).tgQ
     (σ.keyFrames.getD σ.cur2 dKF).tgQ (σ.keyFrames.getD σ.cur2 dKF).q (alphaOf t σ)⟩

/-- The state reached after the evaluator's three lazy-refresh stages. -/
def postState (sqTangent : Quat → Quat → Quat → Quat) (t : ℚ) (s : InterpState) :
    InterpState :=
  ensureSpline (updateCurrentKeyFrameForTime t
    (ensureValues sqTangent { s with interpolationTime := t }))

theorem iat_frame_eq (sqT : Quat → Quat → Quat → Quat)
    (squad : Quat → Quat → Quat → Quat → ℚ → Quat) (t : ℚ) (s : InterpState)
    (hne : s.keyFrames ≠ []) (hsink : s.frame.isNone = false) :
    (interpolateAtTime sqT squad t s).1.frame =
      some (appliedPose squad t (postState sqT t s)) := by
  have hE : s.keyFrames.isEmpty = false := by
    cases h : s.keyFrames with
    | nil => exact absurd h hne
    | cons a l => rfl
  have hguard : ¬(s.keyFrames.isEmpty = true ∨ s.frame.isNone = true) := by
    rw [hE, hsink]; simp
  unfold interpolateAtTime
  dsimp only
  rw [if_neg hguard]
  rfl

theorem postState_of_valid (sqT : Quat → Quat → Quat → Quat) (t : ℚ)
    (s : InterpState) (hvv : s.valuesAreValid = true) :
    postState sqT t s =
      ensureSpline (updateCurrentKeyFrameForTime t { s with interpolationTime := t }) := by
  unfold postState
  rw [ensureValues_of_valid sqT
    (show ({ s with interpolationTime := t } : InterpState).valuesAreValid = true from hvv)]

theorem ensureSpline_keyFrames (σ : InterpState) :
    (ensureSpline σ).keyFrames = σ.keyFrames := by
  unfold ensureSpline updateSplineCache
  split <;> rfl

theorem ensureSpline_cur1 (σ : InterpState) : (ensureSpline σ).cur1 = σ.cur1 := by
  unfold ensureSpline updateSplineCache
  split <;> rfl

theorem ensureSpline_cur2 (σ : InterpState) : (ensureSpline σ).cur2 = σ.cur2 := by
  unfold ensureSpline updateSplineCache
  split <;> rfl

/-- After `ensureSpline`, `v1`/`v2` are the cubic coefficients of the cursor
window, provided the state satisfies the coherence invariant. -/
theorem ensureSpline_coh (σ : InterpState) (h : splineCoherent σ) :
    (ensureSpline σ).v1 = splineV1 ((ensureSpline σ).keyFrames.getD (ensureSpline σ).cur1 dKF)
        ((ensureSpline σ).keyFrames.getD (ensureSpline σ).cur2 dKF) ∧
    (ensureSpline σ).v2 = splineV2 ((ensureSpline σ).keyFrames.getD (ensureSpline σ).cur1 dKF)
        ((ensureSpline σ).keyFrames.getD (ensureSpline σ).cur2 dKF) := by
  cases hf : σ.splineCacheIsValid with
  | true =>
      rw [ensureSpline_of_true hf]
      exact h hf
  | false =>
      rw [ensureSpline_of_false hf]
      exact ⟨rfl, rfl⟩

/-- When cursor 1's keyframe sits exactly at the query time, `alpha = 0` and
the applied pose is cursor 1's keyframe pose. -/
theorem appliedPose_at_left (squad : Quat → Quat → Quat → Quat → ℚ → Quat)
    (hsq0 : ∀ a b c d, squad a b c d 0 = a) (t : ℚ) (σ : InterpState)
    (h1 : (σ.keyFrames.getD σ.cur1 dKF).time = t) :
    appliedPose squad t σ =
      ⟨(σ.keyFrames.getD σ.cur1 dKF).p, (σ.keyFrames.getD σ.cur1 dKF).q⟩ := by
  have hα : alphaOf t σ = 0 := by
    unfold alphaOf
    rw [h1, sub_self]
    simp
  unfold appliedPose
  rw [hα]
  simp [hsq0]

/-- When cursor 2's keyframe sits exactly at the query time, the cursor
window's coefficients are coherent, and either the window is degenerate or
cursor 1's time differs, the applied pose is cursor 2's keyframe pose
(`alpha = 0` on a degenerate window, `alpha = 1` and the cubic telescopes
otherwise). -/
theorem appliedPose_at_right (squad : Quat → Quat → Quat → Quat → ℚ → Quat)
    (hsq0 : ∀ a b c d, squad a b c d 0 = a)
    (hsq1 : ∀ a b c d, squad a b c d 1 = d) (t : ℚ) (σ : InterpState)
    (h2 : (σ.keyFrames.getD σ.cur2 dKF).time = t)
    (hv1 : σ.v1 = splineV1 (σ.keyFrames.getD σ.cur1 dKF) (σ.keyFrames.getD σ.cur2 dKF))
    (hv2 : σ.v2 = splineV2 (σ.keyFrames.getD σ.cur1 dKF) (σ.keyFrames.getD σ.cur2 dKF))
    (hcase : σ.cur1 = σ.cur2 ∨ (σ.keyFrames.getD σ.cur1 dKF).time ≠ t) :
    appliedPose squad t σ =
      ⟨(σ.keyFrames.getD σ.cur2 dKF).p, (σ.keyFrames.getD σ.cur2 dKF).q⟩ := by
  rcases hcase with hc | hc
  · have hα : alphaOf t σ = 0 := by
      unfold alphaOf
      rw [hc, sub_self]
      simp
    unfold appliedPose
    rw [hα, hc]
    simp [hsq0]
  · have hsub : t - (σ.keyFrames.getD σ.cur1 dKF).time ≠ 0 :=
      sub_ne_zero.mpr (Ne.symm hc)
    have hα : alphaOf t σ = 1 := by
      unfold alphaOf
      rw [h2, if_neg hsub]
      exact div_self hsub
    unfold appliedPose
    rw [hα, hv1, hv2, cubic_at_one, hsq1]

/-- Last-endpoint evaluation, window-reuse case: cursor 2 already sits on the
last keyframe. -/
theorem appliedPose_last_of_reuse (squad : Quat → Quat → Quat → Quat → ℚ → Quat)
    (hsq0 : ∀ a b c d, squad a b c d 0 = a)
    (hsq1 : ∀ a b c d, squad a b c d 1 = d) (σ : InterpState)
    (hco : splineCoherent σ) (hb1 : σ.cur1 < σ.keyFrames.length)
    (hc2 : σ.cur2 = σ.keyFrames.length - 1)
    (hstrict : ∀ k, k < σ.keyFrames.length → ∀ j, j < k →
      kfTime σ.keyFrames j < kfTime σ.keyFrames k) :
    appliedPose squad (kfTime σ.keyFrames (σ.keyFrames.length - 1)) (ensureSpline σ) =
      ⟨(σ.keyFrames.getD (σ.keyFrames.length - 1) dKF).p,
       (σ.keyFrames.getD (σ.keyFrames.length - 1) dKF).q⟩ := by
  have hcoh := ensureSpline_coh σ hco
  have h2 : ((ensureSpline σ).keyFrames.getD (ensureSpline σ).cur2 dKF).time =
      kfTime σ.keyFrames (σ.keyFrames.length - 1) := by
    rw [ensureSpline_keyFrames, ensureSpline_cur2, hc2]
    rfl
  have hcase : (ensureSpline σ).cur1 = (ensureSpline σ).cur2 ∨
      ((ensureSpline σ).keyFrames.getD (ensureSpline σ).cur1 dKF).time ≠
        kfTime σ.keyFrames (σ.keyFrames.length - 1) := by
    by_cases hc12 : σ.cur1 = σ.keyFrames.length - 1
    · left
      rw [ensureSpline_cur1, ensureSpline_cur2, hc2, hc12]
    · right
      rw [ensureSpline_keyFrames, ensureSpline_cur1]
      exact ne_of_lt (hstrict (σ.keyFrames.length - 1) (by omega) σ.cur1 (by omega))
  rw [appliedPose_at_right squad hsq0 hsq1 _ _ h2 hcoh.1 hcoh.2 hcase]
  rw [ensureSpline_keyFrames, ensureSpline_cur2, hc2]

/-- Last-endpoint evaluation, window-rebuild case: both bracketing cursors
were just placed on the last keyframe and the spline cache was invalidated. -/
theorem appliedPose_last_of_rebuild (squad : Quat → Quat → Quat → Quat → ℚ → Quat)
    (hsq0 : ∀ a b c d, squad a b c d 0 = a)
    (hsq1 : ∀ a b c d, squad a b c d 1 = d) (σ : InterpState)
    (hflag : σ.splineCacheIsValid = false)
    (hc1 : σ.cur1 = σ.keyFrames.length - 1)
    (hc2 : σ.cur2 = σ.keyFrames.length - 1) :
    appliedPose squad (kfTime σ.keyFrames (σ.keyFrames.length - 1)) (ensureSpline σ) =
      ⟨(σ.keyFrames.getD (σ.keyFrames.length - 1) dKF).p,
       (σ.keyFrames.getD (σ.keyFrames.length - 1) dKF).q⟩ := by
  rw [ensureSpline_of_false hflag]
  have h2 : ((updateSplineCache σ).keyFrames.getD (updateSplineCache σ).cur2 dKF).time =
      kfTime σ.keyFrames (σ.keyFrames.length - 1) := by
    show (σ.keyFrames.getD σ.cur2 dKF).time = _
    rw [hc2]
    rfl
  have hv1 : (updateSplineCache σ).v1 =
      splineV1 ((updateSplineCache σ).keyFrames.getD (updateSplineCache σ).cur1 dKF)
        ((updateSplineCache σ).keyFrames.getD (updateSplineCache σ).cur2 dKF) := rfl
  have hv2 : (updateSplineCache σ).v2 =
      splineV2 ((updateSplineCache σ).keyFrames.getD (updateSplineCache σ).cur1 dKF)
        ((updateSplineCache σ).keyFrames.getD (updateSplineCache σ).cur2 dKF) := rfl
  have hcc : (updateSplineCache σ).cur1 = (updateSplineCache σ).cur2 := by
    show σ.cur1 = σ.cur2
    rw [hc1, hc2]
  rw [appliedPose_at_right squad hsq0 hsq1 _ _ h2 hv1 hv2 (Or.inl hcc)]
  show (⟨(σ.keyFrames.getD σ.cur2 dKF).p, (σ.keyFrames.getD σ.cur2 dKF).q⟩ : Pose) = _
  rw [hc2]

theorem iat_first_core (sqT : Quat → Quat → Quat → Quat)
    (squad : Quat → Quat → Quat → Quat → ℚ → Quat) (s : InterpState)
    (hne : s.keyFrames ≠ []) (hsink : s.frame.isNone = false)
    (hvv : s.valuesAreValid = true)
    (hb : s.currentFrameValid = true →
      s.cur1 < s.keyFrames.length ∧ s.cur2 < s.keyFrames.length)
    (hstrict : ∀ k, k < s.keyFrames.length → ∀ j, j < k →
      kfTime s.keyFrames j < kfTime s.keyFrames k)
    (hsq0 : ∀ a b c d, squad a b c d 0 = a) :
    (interpolateAtTime sqT squad (kfTime s.keyFrames 0) s).1.frame =
      some ⟨(s.keyFrames.getD 0 dKF).p, (s.keyFrames.getD 0 dKF).q⟩ := by
  rw [iat_frame_eq sqT squad _ s hne hsink, postState_of_valid sqT _ s hvv]
  have hc1 : (updateCurrentKeyFrameForTime (kfTime s.keyFrames 0)
      { s with interpolationTime := kfTime s.keyFrames 0 }).cur1 = 0 :=
    tracker_at_first { s with interpolationTime := kfTime s.keyFrames 0 } hne hb
      (fun j k hjk hk => hstrict k hk j hjk)
  have h1 : ((ensureSpline (updateCurrentKeyFrameForTime (kfTime s.keyFrames 0)
        { s with interpolationTime := kfTime s.keyFrames 0 })).keyFrames.getD
      (ensureSpline (updateCurrentKeyFrameForTime (kfTime s.keyFrames 0)
        { s with interpolationTime := kfTime s.keyFrames 0 })).cur1 dKF).time =
      kfTime s.keyFrames 0 := by
    rw [ensureSpline_keyFrames, tracker_keyFrames, ensureSpline_cur1, hc1]
    rfl
  rw [appliedPose_at_left squad hsq0 _ _ h1]
  rw [ensureSpline_keyFrames, tracker_keyFrames, ensureSpline_cur1, hc1]

theorem iat_last_core (sqT : Quat → Quat → Quat → Quat)
    (squad : Quat → Quat → Quat → Quat → ℚ → Quat) (s : InterpState)
    (hne : s.keyFrames ≠ []) (hsink : s.frame.isNone = false)
    (hvv : s.valuesAreValid = true)
    (hb : s.currentFrameValid = true →
      s.cur1 < s.keyFrames.length ∧ s.cur2 < s.keyFrames.length)
    (hstrict : ∀ k, k < s.keyFrames.length → ∀ j, j < k →
      kfTime s.keyFrames j < kfTime s.keyFrames k)
    (hco : splineCoherent s)
    (hsq0 : ∀ a b c d, squad a b c d 0 = a)
    (hsq1 : ∀ a b c d, squad a b c d 1 = d) :
    (interpolateAtTime sqT squad (kfTime s.keyFrames (s.keyFrames.length - 1)) s).1.frame =
      some ⟨(s.keyFrames.getD (s.keyFrames.length - 1) dKF).p,
            (s.keyFrames.getD (s.keyFrames.length - 1) dKF).q⟩ := by
  rw [iat_frame_eq sqT squad _ s hne hsink, postState_of_valid sqT _ s hvv]
  have htl : (updateCurrentKeyFrameForTime (kfTime s.keyFrames (s.keyFrames.length - 1))
        { s with interpolationTime := kfTime s.keyFrames (s.keyFrames.length - 1) } =
        { s with interpolationTime := kfTime s.keyFrames (s.keyFrames.length - 1) } ∧
      s.currentFrameValid = true ∧ s.cur2 = s.keyFrames.length - 1) ∨
      (∃ c0 c3, updateCurrentKeyFrameForTime (kfTime s.keyFrames (s.keyFrames.length - 1))
        { s with interpolationTime := kfTime s.keyFrames (s.keyFrames.length - 1) } =
        { s with
            interpolationTime := kfTime s.keyFrames (s.keyFrames.length - 1),
            cur0 := c0, cur1 := s.keyFrames.length - 1,
            cur2 := s.keyFrames.length - 1, cur3 := c3,
            currentFrameValid := true, splineCacheIsValid := false }) :=
    tracker_at_last { s with interpolationTime := kfTime s.keyFrames (s.keyFrames.length - 1) }
      hne hb (fun j k hjk hk => hstrict k hk j hjk)
  rcases htl with ⟨heq, hcf, hc2⟩ | ⟨c0, c3, htr⟩
  · rw [heq]
    exact congrArg some (appliedPose_last_of_reuse squad hsq0 hsq1
      { s with interpolationTime := kfTime s.keyFrames (s.keyFrames.length - 1) }
      hco (hb hcf).1 hc2 hstrict)
  · rw [htr]
    exact congrArg some (appliedPose_last_of_rebuild squad hsq0 hsq1
      { s with
          interpolationTime := kfTime s.keyFrames (s.keyFrames.length - 1),
          cur0 := c0, cur1 := s.keyFrames.length - 1,
          cur2 := s.keyFrames.length - 1, cur3 := c3,
          currentFrameValid := true, splineCacheIsValid := false }
      rfl rfl rfl)

/-- Counterexample for claim C2 as stated: on the store with keyframes at
times 0, 1, 1 (positions (0,0,0), (1,0,0), (2,0,0)) — accepted by
`addKeyFrame`, which only rejects strictly decreasing times — evaluating at
`lastTime() = 1` applies the pose of the *second* keyframe (position
(1,0,0)), not the last keyframe's position (2,0,0). -/
theorem evaluate_lastTime_duplicate_cex :
    lastTime (baseState [cKF0, cKF1, cKF1b]) =
      ((baseState [cKF0, cKF1, cKF1b]).keyFrames.getD 2 dKF).time ∧
    ((baseState [cKF0, cKF1, cKF1b]).keyFrames.getD 2 dKF).p = ⟨2, 0, 0⟩ ∧
    ((interpolateAtTime sqTangentMid squadLin
        (lastTime (baseState [cKF0, cKF1, cKF1b]))
        (baseState [cKF0, cKF1, cKF1b])).1.frame.map Pose.p) = some ⟨1, 0, 0⟩ := by
  refine ⟨by decide, by decide, ?_⟩
  have h1 : lastTime (baseState [cKF0, cKF1, cKF1b]) = 1 := by decide
  rw [h1]
  have hguard : ¬((baseState [cKF0, cKF1, cKF1b]).keyFrames.isEmpty = true ∨
      (baseState [cKF0, cKF1, cKF1b]).frame.isNone = true) := by decide
  unfold interpolateAtTime
  dsimp only
  rw [if_neg hguard]
  rw [ensureValues_of_valid sqTangentMid
    (show ({ baseState [cKF0, cKF1, cKF1b] with interpolationTime := 1 } :
      InterpState).valuesAreValid = true from rfl)]
  have htr : updateCurrentKeyFrameForTime 1
      { baseState [cKF0, cKF1, cKF1b] with interpolationTime := 1 } =
      ⟨[cKF0, cKF1, cKF1b], some cPose, 40, 1, 1, false, false, false, false,
       true, true, false, 0, 1, 1, 2, 0, 0, []⟩ := by decide
  rw [htr]
  unfold ensureSpline
  dsimp only
  simp only [Bool.false_eq_true, if_false]
  unfold updateSplineCache
  dsimp only
  simp [cKF0, cKF1, cKF1b, mkKeyFrameVal]

/-- Claim C2 (amended): for every non-empty store with an associated sink,
refreshed values, in-range cursors when the window is marked valid, a
coherent spline cache, and *strictly increasing* keyframe times, evaluating
at `firstTime()` applies exactly the first keyframe's position and
orientation, and evaluating at `lastTime()` applies exactly the last
keyframe's position and orientation (orientation uses the squad endpoint
laws `squad(a,b,c,d,0) = a` and `squad(a,b,c,d,1) = d`). Without strictness
the lastTime() half fails: with duplicate times at the end of the path the
evaluator applies the pose of the first keyframe carrying `lastTime()`, see
the counterexample. -/
theorem evaluate_endpoints_exact (sqT : Quat → Quat → Quat → Quat)
    (squad : Quat → Quat → Quat → Quat → ℚ → Quat) (s : InterpState)
    (hne : s.keyFrames ≠ []) (hsink : s.frame.isNone = false)
    (hvv : s.valuesAreValid = true)
    (hb : s.currentFrameValid = true →
      s.cur1 < s.keyFrames.length ∧ s.cur2 < s.keyFrames.length)
    (hstrict : ∀ k, k < s.keyFrames.length → ∀ j, j < k →
      kfTime s.keyFrames j < kfTime s.keyFrames k)
    (hco : splineCoherent s)
    (hsq0 : ∀ a b c d, squad a b c d 0 = a)
    (hsq1 : ∀ a b c d, squad a b c d 1 = d) :
    (interpolateAtTime sqT squad (firstTime s) s).1.frame =
      some ⟨(s.keyFrames.getD 0 dKF).p, (s.keyFrames.getD 0 dKF).q⟩ ∧
    (interpolateAtTime sqT squad (lastTime s) s).1.frame =
      some ⟨(s.keyFrames.getD (s.keyFrames.length - 1) dKF).p,
            (s.keyFrames.getD (s.keyFrames.length - 1) dKF).q⟩ := by
  have hE : s.keyFrames.isEmpty = false := by
    cases h : s.keyFrames with
    | nil => exact absurd h hne
    | cons a l => rfl
  have hft : firstTime s = kfTime s.keyFrames 0 := by
    unfold firstTime
    rw [hE]
    rfl
  have hlt2 : lastTime s = kfTime s.keyFrames (s.keyFrames.length - 1) := by
    unfold lastTime
    rw [hE]
    rfl
  rw [hft, hlt2]
  exact ⟨iat_first_core sqT squad s hne hsink hvv hb hstrict hsq0,
         iat_last_core sqT squad s hne hsink hvv hb hstrict hco hsq0 hsq1⟩

/-- Witness for claim C2 on the strictly increasing three-keyframe store
(times 0, 1, 2). -/
theorem evaluate_endpoints_exact_witness :
    (c9State.keyFrames ≠ [] ∧ c9State.frame.isNone = false ∧
      c9State.valuesAreValid = true ∧
      (∀ k, k < c9State.keyFrames.length → ∀ j, j < k →
        kfTime c9State.keyFrames j < kfTime c9State.keyFrames k) ∧
      splineCoherent c9State) ∧
    (interpolateAtTime sqTangentMid squadLin (firstTime c9State) c9State).1.frame =
      some ⟨(c9State.keyFrames.getD 0 dKF).p, (c9State.keyFrames.getD 0 dKF).q⟩ ∧
    (interpolateAtTime sqTangentMid squadLin (lastTime c9State) c9State).1.frame =
      some ⟨(c9State.keyFrames.getD (c9State.keyFrames.length - 1) dKF).p,
            (c9State.keyFrames.getD (c9State.keyFrames.length - 1) dKF).q⟩ :=
  ⟨⟨by decide, rfl, rfl, by decide, fun h => absurd h (by decide)⟩,
   evaluate_endpoints_exact sqTangentMid squadLin c9State (by decide) rfl rfl
     (fun h => absurd h (by decide))
     (by decide)
     (fun h => absurd h (by decide))
     (fun a b c d => by ext <;> simp [squadLin])
     (fun a b c d => by ext <;> simp [squadLin])⟩
